import Mathlib

/-!
# ceepers: grid movement and delayed camera follow

A shallow embedding of `src/main.cpp`: the entity and its bounds-checked
`move`, the float helper `lerp`, and the update section of the main loop
(input handling, camera retargeting, delay counter, camera glide), followed
by the properties of the specification that were checked against it.

Modelling conventions.

* C++ `int` values are `Int`.  Signed overflow is undefined in C++; where an
  addition could leave the 32-bit range (`Entity::move`) the model wraps the
  result in two's complement (`wrapInt`), so that statements which assume
  "no overflow" really use that assumption.
* C++ `float` arithmetic is kept abstract: the program is parametric in a
  record `FloatOps F` of the operations it uses.  Frame-logic theorems hold
  for every such record.  The program's own arithmetic is the instance
  `binary32` (IEEE single precision, every operation rounded to nearest, ties
  to even); the numerical theorems are stated for it.  The instance `exact`
  (unrounded rationals) is the idealised arithmetic, used to instantiate
  parametric theorems and for comparison.
* One iteration of the `while` loop is `frame`; the per-frame input is the
  function `IsKeyPressed : Key → Bool`.
-/

namespace Ceepers

/-! ## Constants (main.cpp lines 7-13) -/

def SCREEN_WIDTH : Int := 800
def SCREEN_HEIGHT : Int := 600
/-- Size of each grid cell in pixels. -/
def GRID_SIZE : Int := 30
/-- Number of columns in the grid. -/
def GRID_COLS : Int := 100
/-- Number of rows in the grid. -/
def GRID_ROWS : Int := 100
/-- Frames to wait before the camera starts moving. -/
def CAMERA_DELAY_FRAMES : Int := 7

/-! ## Float arithmetic -/

/-- The operations on C++ `float` that the program uses.  `ofInt` is the cast
`(float)n`, `ofRat` the rounding of a decimal literal such as `0.08f`. -/
structure FloatOps (F : Type) where
  ofInt : Int → F
  ofRat : ℚ → F
  add : F → F → F
  sub : F → F → F
  mul : F → F → F
  div : F → F → F
  fabs : F → F
  lt : F → F → Bool

/-- Idealised arithmetic over the rationals, without rounding.  It is not the
arithmetic of the program (see `binary32`). -/
def exact : FloatOps ℚ where
  ofInt := fun n => (n : ℚ)
  ofRat := fun q => q
  add := fun a b => a + b
  sub := fun a b => a - b
  mul := fun a b => a * b
  div := fun a b => a / b
  fabs := fun a => |a|
  lt := fun a b => decide (a < b)

/-- Number of binary digits of `n`, by halving; the first argument bounds the
number of halvings and `bitLength n n` is the bit length of `n`. -/
def bitLength : Nat → Nat → Nat
  | 0, _ => 0
  | fuel + 1, n => if n = 0 then 0 else bitLength fuel (n / 2) + 1

/-- Rounding of a rational to the nearest integer, ties to the even one. -/
def roundHalfEven (z : ℚ) : ℤ :=
  if z - ⌊z⌋ < 1 / 2 then ⌊z⌋
  else if 1 / 2 < z - ⌊z⌋ then ⌊z⌋ + 1
  else if ⌊z⌋ % 2 = 0 then ⌊z⌋ else ⌊z⌋ + 1

/-- Exponent of the spacing of the binary32 numbers around `y`, in units of
`2^-149`: with `m` the integer part of `|y| / 2^-149`, it is `0` while
`m < 2^24` (subnormals and the first normal binade) and `bits m - 24` above,
so that the significand has 24 bits. -/
def ulpExponent (y : ℚ) : Nat :=
  bitLength ⌊|y| * ((2 ^ 149 : ℕ) : ℚ)⌋.toNat ⌊|y| * ((2 ^ 149 : ℕ) : ℚ)⌋.toNat - 24

/-- Spacing of the binary32 numbers around `y`. -/
def ulp32 (y : ℚ) : ℚ := ((2 ^ ulpExponent y : ℕ) : ℚ) / ((2 ^ 149 : ℕ) : ℚ)

/-- IEEE 754 binary32 rounding of a rational, to nearest with ties to even.
The exponent range is unbounded above: overflow to infinity (from `2^128`)
is not modelled; every value the program computes is below `2^12`. -/
def round32 (y : ℚ) : ℚ := (roundHalfEven (y / ulp32 y) : ℚ) * ulp32 y

/-- The arithmetic of the program: C++ `float` as IEEE 754 binary32, each
operation computed exactly and then rounded by `round32`.  Finite values
only; `fabs` and `<` are exact. -/
def binary32 : FloatOps ℚ where
  ofInt := fun n => round32 (n : ℚ)
  ofRat := fun q => round32 q
  add := fun a b => round32 (a + b)
  sub := fun a b => round32 (a - b)
  mul := fun a b => round32 (a * b)
  div := fun a b => round32 (a / b)
  fabs := fun a => |a|
  lt := fun a b => decide (a < b)

/-- Camera lerp speed, the literal `0.08f` (line 12). -/
def CAMERA_SPEED {F : Type} (A : FloatOps F) : F := A.ofRat (8 / 100)

/-- The convergence threshold, the literal `0.5f` (line 136). -/
def EPSILON {F : Type} (A : FloatOps F) : F := A.ofRat (1 / 2)

/-! ## Data (raylib's `Color`, `Vector2`, `Camera2D`; `Entity`) -/

structure Color where
  r : Nat
  g : Nat
  b : Nat
  a : Nat
deriving DecidableEq

/-- The raylib colour `BLUE`. -/
def BLUE : Color := ⟨0, 121, 241, 255⟩

structure Vector2 (F : Type) where
  x : F
  y : F
deriving DecidableEq

structure Camera2D (F : Type) where
  offset : Vector2 F
  target : Vector2 F
  rotation : F
  zoom : F
deriving DecidableEq

/-- Entity struct (lines 16-48): grid position and colour. -/
structure Entity where
  x : Int
  y : Int
  color : Color
deriving DecidableEq

/-- Two's complement wrap of an integer into the 32-bit `int` range. -/
def wrapInt (n : Int) : Int := (n + 2147483648) % 4294967296 - 2147483648

/-- `Entity::move` (lines 36-47): the returned flag and the entity afterwards. -/
def Entity.move (e : Entity) (dx dy : Int) : Bool × Entity :=
  let new_x := wrapInt (e.x + dx)
  let new_y := wrapInt (e.y + dy)
  if new_x ≥ 0 ∧ new_x < GRID_COLS ∧ new_y ≥ 0 ∧ new_y < GRID_ROWS then
    (true, { e with x := new_x, y := new_y })
  else
    (false, e)

/-- `lerp` (lines 51-53). -/
def lerp {F : Type} (A : FloatOps F) (start stop amount : F) : F :=
  A.add start (A.mul amount (A.sub stop start))

/-! ## The main loop -/

/-- The keys the loop queries. -/
inductive Key where
  | KEY_Q | KEY_UP | KEY_W | KEY_DOWN | KEY_S | KEY_LEFT | KEY_A | KEY_RIGHT | KEY_D
deriving DecidableEq

/-- The variables of `main` that live across iterations (lines 74-88). -/
structure Game (F : Type) where
  player : Entity
  camera : Camera2D F
  targetPosition : Vector2 F
  cameraDelayCounter : Int
  cameraMoving : Bool
deriving DecidableEq

/-- The pixel centre of the entity's cell, as computed at lines 78 and 115.
With `0 ≤ x, y < 100` the `int` arithmetic cannot overflow. -/
def pixelCenter {F : Type} (A : FloatOps F) (e : Entity) : Vector2 F :=
  ⟨A.ofInt (e.x * GRID_SIZE + GRID_SIZE / 2), A.ofInt (e.y * GRID_SIZE + GRID_SIZE / 2)⟩

/-- State on entry to the loop (lines 74-88). -/
def initial {F : Type} (A : FloatOps F) : Game F :=
  let player : Entity := ⟨GRID_COLS / 2, GRID_ROWS / 2, BLUE⟩
  let target : Vector2 F := pixelCenter A player
  { player := player
    camera :=
      { offset := ⟨A.div (A.ofInt SCREEN_WIDTH) (A.ofRat 2), A.div (A.ofInt SCREEN_HEIGHT) (A.ofRat 2)⟩
        target := target
        rotation := A.ofRat 0
        zoom := A.ofRat 1 }
    targetPosition := ⟨target.x, target.y⟩
    cameraDelayCounter := 0
    cameraMoving := false }

/-- Input handling (lines 99-111): the four `if` statements run in sequence on
the same entity, each overwriting `playerMoved`. -/
def handleInput (IsKeyPressed : Key → Bool) (player : Entity) : Bool × Entity :=
  let r0 : Bool × Entity := (false, player)
  let r1 := if IsKeyPressed Key.KEY_UP || IsKeyPressed Key.KEY_W then r0.2.move 0 (-1) else r0
  let r2 := if IsKeyPressed Key.KEY_DOWN || IsKeyPressed Key.KEY_S then r1.2.move 0 1 else r1
  let r3 := if IsKeyPressed Key.KEY_LEFT || IsKeyPressed Key.KEY_A then r2.2.move (-1) 0 else r2
  let r4 := if IsKeyPressed Key.KEY_RIGHT || IsKeyPressed Key.KEY_D then r3.2.move 1 0 else r3
  r4

/-- Camera retargeting on movement (lines 114-118). -/
def retarget {F : Type} (A : FloatOps F) (playerMoved : Bool) (s : Game F) : Game F :=
  if playerMoved then
    { s with
      targetPosition := pixelCenter A s.player
      cameraDelayCounter := 0
      cameraMoving := false }
  else s

/-- Delay counter update (lines 121-126).  The guard keeps the counter below
the threshold, so the increment cannot overflow. -/
def updateDelay {F : Type} (s : Game F) : Game F :=
  if !s.cameraMoving && s.cameraDelayCounter < CAMERA_DELAY_FRAMES then
    let c := s.cameraDelayCounter + 1
    { s with
      cameraDelayCounter := c
      cameraMoving := if c ≥ CAMERA_DELAY_FRAMES then true else s.cameraMoving }
  else s

/-- Camera glide and convergence check (lines 129-139). -/
def moveCamera {F : Type} (A : FloatOps F) (s : Game F) : Game F :=
  if s.cameraMoving then
    let tx := lerp A s.camera.target.x s.targetPosition.x (CAMERA_SPEED A)
    let ty := lerp A s.camera.target.y s.targetPosition.y (CAMERA_SPEED A)
    let dx := A.fabs (A.sub tx s.targetPosition.x)
    let dy := A.fabs (A.sub ty s.targetPosition.y)
    { s with
      camera := { s.camera with target := ⟨tx, ty⟩ }
      cameraMoving := if A.lt dx (EPSILON A) && A.lt dy (EPSILON A) then false else s.cameraMoving }
  else s

/-- The state after input handling and retargeting (lines 99-118). -/
def afterInput {F : Type} (A : FloatOps F) (IsKeyPressed : Key → Bool) (s : Game F) : Game F :=
  let r := handleInput IsKeyPressed s.player
  retarget A r.1 { s with player := r.2 }

/-- The state after the delay counter update (lines 99-126). -/
def afterDelay {F : Type} (A : FloatOps F) (IsKeyPressed : Key → Bool) (s : Game F) : Game F :=
  updateDelay (afterInput A IsKeyPressed s)

/-- The update section of one loop iteration (lines 99-139). -/
def frame {F : Type} (A : FloatOps F) (IsKeyPressed : Key → Bool) (s : Game F) : Game F :=
  moveCamera A (afterDelay A IsKeyPressed s)

/-- The state after executing the given frames in order. -/
def frames {F : Type} (A : FloatOps F) : List (Key → Bool) → Game F → Game F
  | [], s => s
  | k :: ks, s => frames A ks (frame A k s)

/-- One iteration's input: the window-close request and the pressed keys. -/
structure FrameInput where
  WindowShouldClose : Bool
  IsKeyPressed : Key → Bool

/-- The `while` loop (lines 91-161) over a finite input trace: it stops on a
close request or on `KEY_Q`, before that iteration's update. -/
def mainLoop {F : Type} (A : FloatOps F) : List FrameInput → Game F → Game F
  | [], s => s
  | i :: is, s =>
    if i.WindowShouldClose then s
    else if i.IsKeyPressed Key.KEY_Q then s
    else mainLoop A is (frame A i.IsKeyPressed s)

/-! ## Vocabulary of the specification -/

/-- The grid bounds `0 ≤ x < GRID_COLS`, `0 ≤ y < GRID_ROWS`. -/
def inBounds (x y : Int) : Prop := 0 ≤ x ∧ x < GRID_COLS ∧ 0 ≤ y ∧ y < GRID_ROWS

instance (x y : Int) : Decidable (inBounds x y) := by unfold inBounds; infer_instance

/-- The value fits the 32-bit `int` type. -/
def isInt (n : Int) : Prop := -2147483648 ≤ n ∧ n ≤ 2147483647

instance (n : Int) : Decidable (isInt n) := by unfold isInt; infer_instance

/-- The controller phases of the specification. -/
inductive Phase where
  | IDLE | WAITING | MOVING
deriving DecidableEq

/-- The phase encoded by the two loop variables: `MOVING` when `cameraMoving`,
otherwise `WAITING` below the threshold and `IDLE` at it. -/
def phase {F : Type} (s : Game F) : Phase :=
  if s.cameraMoving then Phase.MOVING
  else if s.cameraDelayCounter < CAMERA_DELAY_FRAMES then Phase.WAITING
  else Phase.IDLE

/-- No key pressed. -/
def noKey : Key → Bool := fun _ => false

/-- Exactly the given key pressed. -/
def only (k : Key) : Key → Bool := fun j => decide (j = k)

/-- The keys of the given list pressed. -/
def pressed (ks : List Key) : Key → Bool := fun j => decide (j ∈ ks)

/-- The four movement directions, in the order in which the loop tests them. -/
inductive Direction where
  | up | down | left | right
deriving DecidableEq

/-- The `dx` argument passed to `move` for a direction. -/
def Direction.dx : Direction → Int
  | .left => -1
  | .right => 1
  | _ => 0

/-- The `dy` argument passed to `move` for a direction. -/
def Direction.dy : Direction → Int
  | .up => -1
  | .down => 1
  | _ => 0

/-- Whether one of the two keys bound to a direction is pressed. -/
def Direction.isPressed (k : Key → Bool) : Direction → Bool
  | .up => k Key.KEY_UP || k Key.KEY_W
  | .down => k Key.KEY_DOWN || k Key.KEY_S
  | .left => k Key.KEY_LEFT || k Key.KEY_A
  | .right => k Key.KEY_RIGHT || k Key.KEY_D

/-- The directions pressed in a frame, in test order.  `attempts k = [d]` says
that `d` is the one direction pressed, `attempts k = []` that none is. -/
def attempts (k : Key → Bool) : List Direction :=
  [Direction.up, Direction.down, Direction.left, Direction.right].filter
    (fun d => d.isPressed k)

/-- Specification-side reading of the input handling: every pressed direction
is attempted, in test order, each on the entity left by the previous attempt;
the flag is the result of the last attempt. -/
def attemptAll (k : Key → Bool) (e : Entity) : Bool × Entity :=
  (attempts k).foldl (fun r d => r.2.move d.dx d.dy) (false, e)

/-- The phase encoding is consistent: the counter is within `0 .. threshold`
and `cameraMoving` is set only at the threshold. -/
def wellFormed {F : Type} (s : Game F) : Prop :=
  0 ≤ s.cameraDelayCounter ∧ s.cameraDelayCounter ≤ CAMERA_DELAY_FRAMES ∧
    (s.cameraMoving = true → s.cameraDelayCounter = CAMERA_DELAY_FRAMES)

/-- The state after `n` further frames with no key pressed. -/
def quiet {F : Type} (A : FloatOps F) (n : Nat) (s : Game F) : Game F :=
  frames A (List.replicate n noKey) s

/-- No move attempted in the frame succeeds: every pressed direction is
blocked for the entity. -/
def noSuccessfulMove (k : Key → Bool) (e : Entity) : Prop :=
  ∀ d ∈ attempts k, (e.move d.dx d.dy).1 = false

instance (k : Key → Bool) (e : Entity) : Decidable (noSuccessfulMove k e) := by
  unfold noSuccessfulMove; infer_instance

/-- The arithmetic keeps a pan that is already on its target in place: gliding
from `p` toward `p` gives `p`, and the distance from `p` to `p` passes the
convergence test.  True of exact arithmetic for every `p`, and of IEEE floats
for every finite `p`. -/
def fixedAt {F : Type} (A : FloatOps F) (p : F) : Prop :=
  lerp A p p (CAMERA_SPEED A) = p ∧ A.lt (A.fabs (A.sub p p)) (EPSILON A) = true

/-- A step from `p` to `q` toward the target `t` stays between `p` and `t`
inclusive (so on the same side of `t` as `p`) and does not increase the
distance to `t`. -/
def staysBetween (p t q : ℚ) : Prop :=
  (p ≤ t → p ≤ q ∧ q ≤ t) ∧ (t ≤ p → t ≤ q ∧ q ≤ p) ∧ |q - t| ≤ |p - t|

/-- The scenario after its move frame, in the program's arithmetic: the
initial state followed by one frame with only the right key pressed. -/
def scenarioMoved : Game ℚ := frame binary32 (only Key.KEY_RIGHT) (initial binary32)

/-- The scenario run to IDLE (55 quiet frames), followed by nine steps up on
alternating keys. -/
def stallUps : Game ℚ :=
  frames binary32
    [only Key.KEY_UP, only Key.KEY_W, only Key.KEY_UP, only Key.KEY_W, only Key.KEY_UP,
      only Key.KEY_W, only Key.KEY_UP, only Key.KEY_W, only Key.KEY_UP]
    (quiet binary32 55 scenarioMoved)

/-- A state of the program late in a glide: `stallUps` followed by 80 quiet
frames. -/
def stallState : Game ℚ := quiet binary32 80 stallUps

/-- The phases after each of the next `n` frames with no key pressed. -/
def phasesAfter {F : Type} (A : FloatOps F) : Nat → Game F → List Phase
  | 0, _ => []
  | n + 1, s => phase (frame A noKey s) :: phasesAfter A n (frame A noKey s)

/-! ## Entity::move -/

theorem wrapInt_of_isInt {n : Int} (h : isInt n) : wrapInt n = n := by
  unfold isInt at h
  unfold wrapInt
  omega

theorem move_eq_of_inBounds (e : Entity) (dx dy : Int)
    (hx : isInt (e.x + dx)) (hy : isInt (e.y + dy)) (hb : inBounds (e.x + dx) (e.y + dy)) :
    e.move dx dy = (true, { e with x := e.x + dx, y := e.y + dy }) := by
  unfold inBounds at hb
  simp only [Entity.move, wrapInt_of_isInt hx, wrapInt_of_isInt hy]
  rw [if_pos ⟨hb.1, hb.2.1, hb.2.2.1, hb.2.2.2⟩]

theorem move_eq_of_not_inBounds (e : Entity) (dx dy : Int)
    (hx : isInt (e.x + dx)) (hy : isInt (e.y + dy)) (hb : ¬ inBounds (e.x + dx) (e.y + dy)) :
    e.move dx dy = (false, e) := by
  unfold inBounds at hb
  simp only [Entity.move, wrapInt_of_isInt hx, wrapInt_of_isInt hy]
  rw [if_neg hb]

/-- C1: for an entity at `(x, y)` and a delta `(dx, dy)` whose sums do not
overflow `int`, `Entity::move` returns true exactly when `(x+dx, y+dy)` is
inside the grid; then the entity is at `(x+dx, y+dy)`, otherwise the entity is
unchanged and the result is false.  The colour is the same in both cases. -/
theorem C1_move_contract (e : Entity) (dx dy : Int)
    (hx : isInt (e.x + dx)) (hy : isInt (e.y + dy)) :
    ((e.move dx dy).1 = true ↔ inBounds (e.x + dx) (e.y + dy)) ∧
    (inBounds (e.x + dx) (e.y + dy) →
      e.move dx dy = (true, { x := e.x + dx, y := e.y + dy, color := e.color })) ∧
    (¬ inBounds (e.x + dx) (e.y + dy) → e.move dx dy = (false, e)) ∧
    (e.move dx dy).2.color = e.color := by
  by_cases hb : inBounds (e.x + dx) (e.y + dy)
  · have h := move_eq_of_inBounds e dx dy hx hy hb
    refine ⟨?_, fun _ => h, fun hn => absurd hb hn, ?_⟩ <;> simp [h, hb]
  · have h := move_eq_of_not_inBounds e dx dy hx hy hb
    refine ⟨?_, fun hp => absurd hp hb, fun _ => h, ?_⟩ <;> simp [h, hb]

theorem C1_move_contract_witness :
    isInt ((⟨99, 0, BLUE⟩ : Entity).x + 1) ∧ isInt ((⟨99, 0, BLUE⟩ : Entity).y + (-1)) ∧
    (¬ inBounds ((⟨99, 0, BLUE⟩ : Entity).x + 1) ((⟨99, 0, BLUE⟩ : Entity).y + (-1)) →
      (⟨99, 0, BLUE⟩ : Entity).move 1 (-1) = (false, ⟨99, 0, BLUE⟩)) :=
  ⟨by decide, by decide, (C1_move_contract ⟨99, 0, BLUE⟩ 1 (-1) (by decide) (by decide)).2.2.1⟩

/-! ## The bounds invariant -/

theorem move_inBounds (e : Entity) (dx dy : Int) (h : inBounds e.x e.y) :
    inBounds (e.move dx dy).2.x (e.move dx dy).2.y := by
  unfold Entity.move
  dsimp only
  split
  · next hg => exact ⟨hg.1, hg.2.1, hg.2.2.1, hg.2.2.2⟩
  · exact h

theorem handleInput_inBounds (k : Key → Bool) (e : Entity) (h : inBounds e.x e.y) :
    inBounds (handleInput k e).2.x (handleInput k e).2.y := by
  unfold handleInput
  dsimp only
  have step : ∀ (c : Bool) (dx dy : Int) (r : Bool × Entity), inBounds r.2.x r.2.y →
      inBounds (if c then r.2.move dx dy else r).2.x (if c then r.2.move dx dy else r).2.y := by
    intro c dx dy r hr
    cases c
    · simpa using hr
    · simpa using move_inBounds r.2 dx dy hr
  exact step _ _ _ _ (step _ _ _ _ (step _ _ _ _ (step _ _ _ (false, e) h)))

theorem retarget_player {F : Type} (A : FloatOps F) (b : Bool) (s : Game F) :
    (retarget A b s).player = s.player := by
  unfold retarget
  split <;> rfl

theorem updateDelay_player {F : Type} (s : Game F) : (updateDelay s).player = s.player := by
  unfold updateDelay
  split <;> rfl

theorem moveCamera_player {F : Type} (A : FloatOps F) (s : Game F) :
    (moveCamera A s).player = s.player := by
  unfold moveCamera
  split <;> rfl

theorem frame_player {F : Type} (A : FloatOps F) (k : Key → Bool) (s : Game F) :
    (frame A k s).player = (handleInput k s.player).2 := by
  simp only [frame, afterDelay, afterInput, moveCamera_player, updateDelay_player,
    retarget_player]

theorem frame_inBounds {F : Type} (A : FloatOps F) (k : Key → Bool) (s : Game F)
    (h : inBounds s.player.x s.player.y) :
    inBounds (frame A k s).player.x (frame A k s).player.y := by
  rw [frame_player]
  exact handleInput_inBounds k s.player h

theorem frames_inBounds {F : Type} (A : FloatOps F) (ks : List (Key → Bool)) :
    ∀ s : Game F, inBounds s.player.x s.player.y →
      inBounds (frames A ks s).player.x (frames A ks s).player.y := by
  induction ks with
  | nil => intro s h; exact h
  | cons k ks ih => intro s h; exact ih (frame A k s) (frame_inBounds A k s h)

theorem mainLoop_inBounds {F : Type} (A : FloatOps F) (tr : List FrameInput) :
    ∀ s : Game F, inBounds s.player.x s.player.y →
      inBounds (mainLoop A tr s).player.x (mainLoop A tr s).player.y := by
  induction tr with
  | nil => intro s h; exact h
  | cons i is ih =>
    intro s h
    unfold mainLoop
    split
    · exact h
    · split
      · exact h
      · exact ih (frame A i.IsKeyPressed s) (frame_inBounds A i.IsKeyPressed s h)

theorem initial_inBounds {F : Type} (A : FloatOps F) :
    inBounds (initial A).player.x (initial A).player.y := by
  show inBounds (GRID_COLS / 2) (GRID_ROWS / 2)
  decide

/-- C2: bounds invariant.  From the initial state, after every finite sequence
of frames with arbitrary pressed keys (several move attempts in one frame
included) the entity satisfies `0 ≤ x < GRID_COLS` and `0 ≤ y < GRID_ROWS`;
the same holds for the loop with its exit checks, on every input trace. -/
theorem C2_bounds_invariant {F : Type} (A : FloatOps F) :
    (∀ ks : List (Key → Bool),
      0 ≤ (frames A ks (initial A)).player.x ∧ (frames A ks (initial A)).player.x < GRID_COLS ∧
      0 ≤ (frames A ks (initial A)).player.y ∧ (frames A ks (initial A)).player.y < GRID_ROWS) ∧
    (∀ tr : List FrameInput,
      0 ≤ (mainLoop A tr (initial A)).player.x ∧ (mainLoop A tr (initial A)).player.x < GRID_COLS ∧
      0 ≤ (mainLoop A tr (initial A)).player.y ∧ (mainLoop A tr (initial A)).player.y < GRID_ROWS) :=
  ⟨fun ks => frames_inBounds A ks (initial A) (initial_inBounds A),
   fun tr => mainLoop_inBounds A tr (initial A) (initial_inBounds A)⟩

/-! ## Input handling -/

theorem handleInput_eq_attemptAll (k : Key → Bool) (e : Entity) :
    handleInput k e = attemptAll k e := by
  unfold handleInput attemptAll attempts
  simp only [List.filter, Direction.isPressed]
  generalize (k Key.KEY_UP || k Key.KEY_W) = u
  generalize (k Key.KEY_DOWN || k Key.KEY_S) = d
  generalize (k Key.KEY_LEFT || k Key.KEY_A) = l
  generalize (k Key.KEY_RIGHT || k Key.KEY_D) = r
  cases u <;> cases d <;> cases l <;> cases r <;>
    simp only [List.foldl, Direction.dx, Direction.dy, if_true, Bool.false_eq_true, if_false]

theorem handleInput_single (k : Key → Bool) (d : Direction) (e : Entity)
    (h : attempts k = [d]) : handleInput k e = e.move d.dx d.dy := by
  rw [handleInput_eq_attemptAll]
  unfold attemptAll
  rw [h]
  rfl

theorem handleInput_none (k : Key → Bool) (e : Entity) (h : attempts k = []) :
    handleInput k e = (false, e) := by
  rw [handleInput_eq_attemptAll]
  unfold attemptAll
  rw [h]
  rfl

/-! ## One frame, stage by stage -/

theorem afterInput_moved {F : Type} (A : FloatOps F) (k : Key → Bool) (s : Game F)
    (h : (handleInput k s.player).1 = true) :
    afterInput A k s =
      { s with
        player := (handleInput k s.player).2
        targetPosition := pixelCenter A (handleInput k s.player).2
        cameraDelayCounter := 0
        cameraMoving := false } := by
  unfold afterInput retarget
  simp [h]

theorem afterInput_not_moved {F : Type} (A : FloatOps F) (k : Key → Bool) (s : Game F)
    (h : (handleInput k s.player).1 = false) :
    afterInput A k s = { s with player := (handleInput k s.player).2 } := by
  unfold afterInput retarget
  simp [h]

theorem frame_moved {F : Type} (A : FloatOps F) (k : Key → Bool) (s : Game F)
    (h : (handleInput k s.player).1 = true) :
    frame A k s =
      { s with
        player := (handleInput k s.player).2
        targetPosition := pixelCenter A (handleInput k s.player).2
        cameraDelayCounter := 1
        cameraMoving := false } := by
  unfold frame afterDelay
  rw [afterInput_moved A k s h]
  simp [updateDelay, moveCamera, CAMERA_DELAY_FRAMES]

theorem afterInput_noKey {F : Type} (A : FloatOps F) (s : Game F) : afterInput A noKey s = s := by
  rw [afterInput_not_moved A noKey s (by rw [handleInput_none noKey s.player rfl]),
    handleInput_none noKey s.player rfl]

theorem frame_quiet_waiting {F : Type} (A : FloatOps F) (s : Game F)
    (hm : s.cameraMoving = false) (hc : s.cameraDelayCounter + 1 < CAMERA_DELAY_FRAMES) :
    frame A noKey s = { s with cameraDelayCounter := s.cameraDelayCounter + 1 } := by
  unfold frame afterDelay
  rw [afterInput_noKey]
  unfold CAMERA_DELAY_FRAMES at hc
  have h1 : s.cameraDelayCounter < 7 := by omega
  have h2 : ¬ (7 ≤ s.cameraDelayCounter + 1) := by omega
  simp [updateDelay, moveCamera, CAMERA_DELAY_FRAMES, hm, h1, h2]

theorem frame_quiet_trigger {F : Type} (A : FloatOps F) (s : Game F)
    (hm : s.cameraMoving = false) (hc : s.cameraDelayCounter + 1 = CAMERA_DELAY_FRAMES) :
    frame A noKey s =
      moveCamera A { s with cameraDelayCounter := CAMERA_DELAY_FRAMES, cameraMoving := true } := by
  unfold frame afterDelay
  rw [afterInput_noKey]
  unfold CAMERA_DELAY_FRAMES at hc
  have h1 : s.cameraDelayCounter < 7 := by omega
  have h2 : s.cameraDelayCounter + 1 = 7 := hc
  simp [updateDelay, CAMERA_DELAY_FRAMES, hm, h1, h2]

theorem frames_append {F : Type} (A : FloatOps F) (ks js : List (Key → Bool)) :
    ∀ s : Game F, frames A (ks ++ js) s = frames A js (frames A ks s) := by
  induction ks with
  | nil => intro s; rfl
  | cons k ks ih => intro s; exact ih (frame A k s)

theorem quiet_zero {F : Type} (A : FloatOps F) (s : Game F) : quiet A 0 s = s := rfl

theorem quiet_succ {F : Type} (A : FloatOps F) (n : Nat) (s : Game F) :
    quiet A (n + 1) s = frame A noKey (quiet A n s) := by
  unfold quiet
  rw [List.replicate_succ', frames_append]
  rfl

theorem quiet_waiting {F : Type} (A : FloatOps F) (n : Nat) (s : Game F)
    (hm : s.cameraMoving = false) (hc : s.cameraDelayCounter + n < CAMERA_DELAY_FRAMES) :
    quiet A n s = { s with cameraDelayCounter := s.cameraDelayCounter + n } := by
  induction n with
  | zero => simp [quiet_zero]
  | succ n ih =>
    have hc1 : s.cameraDelayCounter + (n : Int) < CAMERA_DELAY_FRAMES := by
      push_cast at hc; omega
    have hc2 : (s.cameraDelayCounter + (n : Int)) + 1 < CAMERA_DELAY_FRAMES := by
      push_cast at hc; omega
    rw [quiet_succ, ih hc1]
    rw [frame_quiet_waiting A { s with cameraDelayCounter := s.cameraDelayCounter + (n : Int) }
      hm hc2]
    simp [add_assoc]

/-! ## A successful move interrupts the controller -/

/-- C3, as stated, fails: in `WAITING` with counter 3, a frame whose one move
(right, from the grid centre) succeeds ends with `cameraDelayCounter = 1`, not
`0`, both after the delay update (line 126) and at the end of the frame. -/
theorem C3_counter_is_one_after_the_frame :
    (quiet exact 3 (initial exact)).cameraMoving = false ∧
    (quiet exact 3 (initial exact)).cameraDelayCounter = 3 ∧
    attempts (only Key.KEY_RIGHT) = [Direction.right] ∧
    ((quiet exact 3 (initial exact)).player.move 1 0).1 = true ∧
    (afterDelay exact (only Key.KEY_RIGHT) (quiet exact 3 (initial exact))).cameraDelayCounter = 1 ∧
    (frame exact (only Key.KEY_RIGHT) (quiet exact 3 (initial exact))).cameraDelayCounter ≠ 0 := by
  decide

/-- C3 (amended): in `WAITING` with counter `k`, `0 < k < CAMERA_DELAY_FRAMES`,
take a frame in which exactly one direction is pressed and its move succeeds.
Right after the retargeting block (lines 114-118) the counter is 0, the phase
is `WAITING` and `targetPosition` is the pixel centre of the new position.  The
delay update of the same frame then increments the counter: at the end of the
frame the counter is 1, the phase is `WAITING`, `targetPosition` is still that
pixel centre, and the camera has not moved. -/
theorem C3_interrupt_resets_delay {F : Type} (A : FloatOps F) (s : Game F) (k : Key → Bool)
    (d : Direction) (_hw : s.cameraMoving = false) (_hk : 0 < s.cameraDelayCounter)
    (_hk' : s.cameraDelayCounter < CAMERA_DELAY_FRAMES)
    (hd : attempts k = [d]) (hm : (s.player.move d.dx d.dy).1 = true) :
    ((afterInput A k s).player = (s.player.move d.dx d.dy).2 ∧
     (afterInput A k s).cameraDelayCounter = 0 ∧
     phase (afterInput A k s) = Phase.WAITING ∧
     (afterInput A k s).targetPosition =
       ⟨A.ofInt ((afterInput A k s).player.x * GRID_SIZE + GRID_SIZE / 2),
        A.ofInt ((afterInput A k s).player.y * GRID_SIZE + GRID_SIZE / 2)⟩) ∧
    ((frame A k s).player = (s.player.move d.dx d.dy).2 ∧
     (frame A k s).cameraDelayCounter = 1 ∧
     phase (frame A k s) = Phase.WAITING ∧
     (frame A k s).targetPosition =
       ⟨A.ofInt ((frame A k s).player.x * GRID_SIZE + GRID_SIZE / 2),
        A.ofInt ((frame A k s).player.y * GRID_SIZE + GRID_SIZE / 2)⟩ ∧
     (frame A k s).camera = s.camera) := by
  have hi : handleInput k s.player = s.player.move d.dx d.dy := handleInput_single k d s.player hd
  have hm' : (handleInput k s.player).1 = true := by rw [hi]; exact hm
  rw [afterInput_moved A k s hm', frame_moved A k s hm', hi]
  simp [phase, pixelCenter, CAMERA_DELAY_FRAMES]

theorem C3_interrupt_resets_delay_witness :
    (quiet exact 3 (initial exact)).cameraDelayCounter = 3 ∧
    (afterInput exact (only Key.KEY_RIGHT) (quiet exact 3 (initial exact))).cameraDelayCounter = 0 ∧
    (frame exact (only Key.KEY_RIGHT) (quiet exact 3 (initial exact))).cameraDelayCounter = 1 :=
  ⟨by decide,
   (C3_interrupt_resets_delay exact (quiet exact 3 (initial exact)) (only Key.KEY_RIGHT)
      Direction.right (by decide) (by decide) (by decide) (by decide) (by decide)).1.2.1,
   (C3_interrupt_resets_delay exact (quiet exact 3 (initial exact)) (only Key.KEY_RIGHT)
      Direction.right (by decide) (by decide) (by decide) (by decide) (by decide)).2.2.1⟩

/-! ## The delay window -/

theorem quiet_after_move {F : Type} (A : FloatOps F) (k : Key → Bool) (s : Game F)
    (h : (handleInput k s.player).1 = true) (n : Nat) (hn : n ≤ 5) :
    quiet A n (frame A k s) =
      { s with
        player := (handleInput k s.player).2
        targetPosition := pixelCenter A (handleInput k s.player).2
        cameraDelayCounter := 1 + (n : Int)
        cameraMoving := false } := by
  rw [frame_moved A k s h, quiet_waiting A n _ rfl]
  show (1 : Int) + (n : Int) < CAMERA_DELAY_FRAMES
  unfold CAMERA_DELAY_FRAMES
  omega

theorem quiet_six_after_move {F : Type} (A : FloatOps F) (k : Key → Bool) (s : Game F)
    (h : (handleInput k s.player).1 = true) :
    quiet A 6 (frame A k s) =
      moveCamera A
        { s with
          player := (handleInput k s.player).2
          targetPosition := pixelCenter A (handleInput k s.player).2
          cameraDelayCounter := CAMERA_DELAY_FRAMES
          cameraMoving := true } := by
  rw [quiet_succ, quiet_after_move A k s h 5 (le_refl 5)]
  exact frame_quiet_trigger A _ rfl (by rfl)

/-- C4, as stated, fails: after a move frame (right, from the initial state)
and quiet frames, `camera.target` is still the old one after the fifth quiet
frame but has been interpolated in the sixth, where the counter reaches 7;
counting the move frame as frame 1, interpolation starts in frame 7, not 8. -/
theorem C4_target_moves_in_sixth_quiet_frame :
    (handleInput (only Key.KEY_RIGHT) (initial exact).player).1 = true ∧
    (quiet exact 5 (frame exact (only Key.KEY_RIGHT) (initial exact))).camera.target =
      (initial exact).camera.target ∧
    (quiet exact 5 (frame exact (only Key.KEY_RIGHT) (initial exact))).cameraDelayCounter = 6 ∧
    (quiet exact 6 (frame exact (only Key.KEY_RIGHT) (initial exact))).cameraDelayCounter = 7 ∧
    (quiet exact 6 (frame exact (only Key.KEY_RIGHT) (initial exact))).camera.target.x =
      7587 / 5 ∧
    (quiet exact 6 (frame exact (only Key.KEY_RIGHT) (initial exact))).camera.target ≠
      (initial exact).camera.target := by
  have h : (handleInput (only Key.KEY_RIGHT) (initial exact).player).1 = true := by decide
  refine ⟨h, by decide, by decide, by decide, ?_, ?_⟩
  · rw [quiet_six_after_move exact _ _ h]
    simp [moveCamera, lerp, exact, CAMERA_SPEED, initial, pixelCenter, handleInput, only,
      Entity.move, wrapInt, GRID_COLS, GRID_ROWS, GRID_SIZE]
    norm_num
  · rw [quiet_six_after_move exact _ _ h]
    simp [moveCamera, lerp, exact, CAMERA_SPEED, initial, pixelCenter, handleInput, only,
      Entity.move, wrapInt, GRID_COLS, GRID_ROWS, GRID_SIZE]
    norm_num

/-- C4 (amended): with threshold `CAMERA_DELAY_FRAMES = 7`, take a frame in
which exactly one direction is pressed and its move succeeds, followed by
frames with no key pressed.  Counting the move frame as frame 1, the counter
is `j` after frame `j` for `j = 1 .. 6` and the camera is unchanged by frames
1 to 6 (the move frame and the next five); in frame 7 (the sixth after the move
frame) the counter reaches the threshold and that same frame is the first to
interpolate `camera.target`, each axis becoming
`lerp(target, targetPosition, CAMERA_SPEED)`. -/
theorem C4_delay_window {F : Type} (A : FloatOps F) (s : Game F) (k : Key → Bool)
    (d : Direction) (hd : attempts k = [d]) (hm : (s.player.move d.dx d.dy).1 = true) :
    (∀ n : Nat, n ≤ 5 →
      (quiet A n (frame A k s)).camera = s.camera ∧
      (quiet A n (frame A k s)).cameraDelayCounter = (n : Int) + 1 ∧
      (quiet A n (frame A k s)).cameraMoving = false) ∧
    (quiet A 6 (frame A k s)).cameraDelayCounter = CAMERA_DELAY_FRAMES ∧
    (quiet A 6 (frame A k s)).camera.target =
      ⟨lerp A s.camera.target.x (frame A k s).targetPosition.x (CAMERA_SPEED A),
       lerp A s.camera.target.y (frame A k s).targetPosition.y (CAMERA_SPEED A)⟩ := by
  have hi : handleInput k s.player = s.player.move d.dx d.dy := handleInput_single k d s.player hd
  have hm' : (handleInput k s.player).1 = true := by rw [hi]; exact hm
  refine ⟨?_, ?_, ?_⟩
  · intro n hn
    rw [quiet_after_move A k s hm' n hn]
    exact ⟨rfl, add_comm _ _, rfl⟩
  · rw [quiet_six_after_move A k s hm']
    simp [moveCamera]
  · rw [quiet_six_after_move A k s hm', frame_moved A k s hm']
    simp [moveCamera]

theorem C4_delay_window_witness :
    attempts (only Key.KEY_RIGHT) = [Direction.right] ∧
    ((initial exact).player.move Direction.right.dx Direction.right.dy).1 = true ∧
    (quiet exact 6 (frame exact (only Key.KEY_RIGHT) (initial exact))).cameraDelayCounter =
      CAMERA_DELAY_FRAMES :=
  ⟨by decide, by decide,
   (C4_delay_window exact (initial exact) (only Key.KEY_RIGHT) Direction.right
      (by decide) (by decide)).2.1⟩

/-! ## The phase encoding and the camera during the delay -/

theorem moveCamera_of_not_moving {F : Type} (A : FloatOps F) (s : Game F)
    (h : s.cameraMoving = false) : moveCamera A s = s := by
  unfold moveCamera
  simp [h]

theorem moveCamera_counter {F : Type} (A : FloatOps F) (s : Game F) :
    (moveCamera A s).cameraDelayCounter = s.cameraDelayCounter := by
  unfold moveCamera
  split <;> rfl

theorem moveCamera_targetPosition {F : Type} (A : FloatOps F) (s : Game F) :
    (moveCamera A s).targetPosition = s.targetPosition := by
  unfold moveCamera
  split <;> rfl

theorem moveCamera_moving_imp {F : Type} (A : FloatOps F) (s : Game F)
    (h : (moveCamera A s).cameraMoving = true) : s.cameraMoving = true := by
  unfold moveCamera at h
  split at h
  · assumption
  · exact h

theorem updateDelay_camera {F : Type} (s : Game F) : (updateDelay s).camera = s.camera := by
  unfold updateDelay
  split <;> rfl

theorem updateDelay_targetPosition {F : Type} (s : Game F) :
    (updateDelay s).targetPosition = s.targetPosition := by
  unfold updateDelay
  split <;> rfl

theorem updateDelay_wellFormed {F : Type} (s : Game F) (h : wellFormed s) :
    wellFormed (updateDelay s) := by
  unfold wellFormed CAMERA_DELAY_FRAMES at *
  obtain ⟨h0, h7, hm⟩ := h
  unfold updateDelay CAMERA_DELAY_FRAMES
  split
  · next hg =>
    simp only [Bool.and_eq_true, Bool.not_eq_true', decide_eq_true_eq] at hg
    refine ⟨by dsimp only; omega, by dsimp only; omega, ?_⟩
    dsimp only
    intro hmov
    by_cases hc : s.cameraDelayCounter + 1 ≥ 7
    · omega
    · rw [if_neg hc, hg.1] at hmov
      exact absurd hmov (by decide)
  · exact ⟨h0, h7, hm⟩

theorem moveCamera_wellFormed {F : Type} (A : FloatOps F) (s : Game F) (h : wellFormed s) :
    wellFormed (moveCamera A s) := by
  unfold wellFormed at *
  rw [moveCamera_counter]
  exact ⟨h.1, h.2.1, fun hm => h.2.2 (moveCamera_moving_imp A s hm)⟩

theorem afterInput_wellFormed {F : Type} (A : FloatOps F) (k : Key → Bool) (s : Game F)
    (h : wellFormed s) : wellFormed (afterInput A k s) := by
  cases hm : (handleInput k s.player).1
  · rw [afterInput_not_moved A k s hm]
    exact h
  · rw [afterInput_moved A k s hm]
    unfold wellFormed CAMERA_DELAY_FRAMES
    simp

theorem frame_wellFormed {F : Type} (A : FloatOps F) (k : Key → Bool) (s : Game F)
    (h : wellFormed s) : wellFormed (frame A k s) :=
  moveCamera_wellFormed A _ (updateDelay_wellFormed _ (afterInput_wellFormed A k s h))

theorem frames_wellFormed {F : Type} (A : FloatOps F) (ks : List (Key → Bool)) :
    ∀ s : Game F, wellFormed s → wellFormed (frames A ks s) := by
  induction ks with
  | nil => intro s h; exact h
  | cons k ks ih => intro s h; exact ih (frame A k s) (frame_wellFormed A k s h)

theorem initial_wellFormed {F : Type} (A : FloatOps F) : wellFormed (initial A) := by
  unfold wellFormed CAMERA_DELAY_FRAMES
  show (0 : Int) ≤ 0 ∧ (0 : Int) ≤ 7 ∧ (false = true → (0 : Int) = 7)
  decide

theorem afterInput_camera {F : Type} (A : FloatOps F) (k : Key → Bool) (s : Game F) :
    (afterInput A k s).camera = s.camera := by
  unfold afterInput retarget
  dsimp only
  split <;> rfl

theorem frame_camera_of_waiting {F : Type} (A : FloatOps F) (k : Key → Bool) (s : Game F)
    (hwf : wellFormed s) (hc : (frame A k s).cameraDelayCounter < CAMERA_DELAY_FRAMES) :
    (frame A k s).camera = s.camera := by
  have hwd : wellFormed (afterDelay A k s) :=
    updateDelay_wellFormed _ (afterInput_wellFormed A k s hwf)
  unfold frame at hc ⊢
  rw [moveCamera_counter] at hc
  cases hd : (afterDelay A k s).cameraMoving
  · rw [moveCamera_of_not_moving A _ hd]
    unfold afterDelay
    rw [updateDelay_camera, afterInput_camera]
  · have := hwd.2.2 hd
    omega

/-- C5: no camera movement during the delay.  For every state reachable from
the initial state and every frame, with any keys, at whose end the controller
is in `WAITING` (`cameraMoving` false and counter below the threshold),
`camera.target`, `camera.offset`, zoom and rotation equal their values before
the frame. -/
theorem C5_camera_still_while_waiting {F : Type} (A : FloatOps F) (ks : List (Key → Bool))
    (k : Key → Bool)
    (_hm : (frame A k (frames A ks (initial A))).cameraMoving = false)
    (hc : (frame A k (frames A ks (initial A))).cameraDelayCounter < CAMERA_DELAY_FRAMES) :
    (frame A k (frames A ks (initial A))).camera.target = (frames A ks (initial A)).camera.target ∧
    (frame A k (frames A ks (initial A))).camera.offset = (frames A ks (initial A)).camera.offset ∧
    (frame A k (frames A ks (initial A))).camera.zoom = (frames A ks (initial A)).camera.zoom ∧
    (frame A k (frames A ks (initial A))).camera.rotation =
      (frames A ks (initial A)).camera.rotation := by
  have h := frame_camera_of_waiting A k (frames A ks (initial A))
    (frames_wellFormed A ks (initial A) (initial_wellFormed A)) hc
  rw [h]
  exact ⟨rfl, rfl, rfl, rfl⟩

theorem C5_camera_still_while_waiting_witness :
    (frame exact (only Key.KEY_LEFT) (frames exact [noKey, only Key.KEY_UP] (initial exact))).cameraMoving
      = false ∧
    (frame exact (only Key.KEY_LEFT)
      (frames exact [noKey, only Key.KEY_UP] (initial exact))).cameraDelayCounter
      < CAMERA_DELAY_FRAMES ∧
    (frame exact (only Key.KEY_LEFT) (frames exact [noKey, only Key.KEY_UP] (initial exact))).camera.target
      = (frames exact [noKey, only Key.KEY_UP] (initial exact)).camera.target :=
  ⟨by decide, by decide,
   (C5_camera_still_while_waiting exact [noKey, only Key.KEY_UP] (only Key.KEY_LEFT)
      (by decide) (by decide)).1⟩

/-! ## Blocked moves -/

theorem move_blocked (e : Entity) (d : Direction)
    (hedge : (d = Direction.right ∧ e.x = GRID_COLS - 1) ∨ (d = Direction.left ∧ e.x = 0) ∨
      (d = Direction.up ∧ e.y = 0) ∨ (d = Direction.down ∧ e.y = GRID_ROWS - 1)) :
    e.move d.dx d.dy = (false, e) := by
  unfold Entity.move
  dsimp only
  rw [if_neg]
  intro hg
  unfold wrapInt GRID_COLS GRID_ROWS at hg
  unfold GRID_COLS GRID_ROWS at hedge
  rcases hedge with ⟨rfl, h⟩ | ⟨rfl, h⟩ | ⟨rfl, h⟩ | ⟨rfl, h⟩ <;>
    simp only [Direction.dx, Direction.dy] at hg <;> omega

theorem frame_not_moved {F : Type} (A : FloatOps F) (k : Key → Bool) (s : Game F)
    (h : handleInput k s.player = (false, s.player)) : frame A k s = frame A noKey s := by
  unfold frame afterDelay
  rw [afterInput_noKey, afterInput_not_moved A k s (by rw [h]), h]

/-- C6: blocked move.  For an entity in column `GRID_COLS-1` (resp. column 0,
row 0, row `GRID_ROWS-1`), a frame in which the only direction pressed is the
one leading out of the grid makes `move` return false with the position
unchanged; the retargeting block changes nothing (counter and
`targetPosition` keep their values) and the whole state after the frame equals
the state after the same frame with no key pressed. -/
theorem C6_blocked_move {F : Type} (A : FloatOps F) (s : Game F) (k : Key → Bool)
    (d : Direction) (hd : attempts k = [d])
    (hedge : (d = Direction.right ∧ s.player.x = GRID_COLS - 1) ∨
      (d = Direction.left ∧ s.player.x = 0) ∨
      (d = Direction.up ∧ s.player.y = 0) ∨
      (d = Direction.down ∧ s.player.y = GRID_ROWS - 1)) :
    (s.player.move d.dx d.dy).1 = false ∧
    (s.player.move d.dx d.dy).2 = s.player ∧
    handleInput k s.player = (false, s.player) ∧
    afterInput A k s = s ∧
    frame A k s = frame A noKey s := by
  have hmv := move_blocked s.player d hedge
  have hi : handleInput k s.player = (false, s.player) := by
    rw [handleInput_single k d s.player hd, hmv]
  refine ⟨by rw [hmv], by rw [hmv], hi, ?_, frame_not_moved A k s hi⟩
  rw [afterInput_not_moved A k s (by rw [hi]), hi]

set_option maxRecDepth 100000 in
theorem C6_blocked_move_witness :
    attempts (pressed [Key.KEY_D]) = [Direction.right] ∧
    (frames exact (List.replicate 49 (only Key.KEY_RIGHT)) (initial exact)).player.x
      = GRID_COLS - 1 ∧
    frame exact (pressed [Key.KEY_D])
        (frames exact (List.replicate 49 (only Key.KEY_RIGHT)) (initial exact))
      = frame exact noKey
        (frames exact (List.replicate 49 (only Key.KEY_RIGHT)) (initial exact)) :=
  ⟨by decide, by decide,
   (C6_blocked_move exact (frames exact (List.replicate 49 (only Key.KEY_RIGHT)) (initial exact))
      (pressed [Key.KEY_D]) Direction.right (by decide) (Or.inl ⟨rfl, by decide⟩)).2.2.2.2⟩

/-! ## Several attempts in one frame -/

theorem cond_move_step (c : Bool) (d : Direction) (r : Bool × Entity)
    (hx : isInt r.2.x) (hy : isInt r.2.y) :
    ((if c then r.2.move d.dx d.dy else r).2.x = r.2.x ∧
      (if c then r.2.move d.dx d.dy else r).2.y = r.2.y) ∨
    ((if c then r.2.move d.dx d.dy else r).2.x = r.2.x + d.dx ∧
      (if c then r.2.move d.dx d.dy else r).2.y = r.2.y + d.dy ∧
      0 ≤ r.2.x + d.dx ∧ r.2.x + d.dx < 100 ∧ 0 ≤ r.2.y + d.dy ∧ r.2.y + d.dy < 100) := by
  cases c
  · exact Or.inl ⟨rfl, rfl⟩
  · have hdx : -1 ≤ d.dx ∧ d.dx ≤ 1 := by cases d <;> decide
    have hdy : -1 ≤ d.dy ∧ d.dy ≤ 1 := by cases d <;> decide
    simp only [if_true]
    unfold Entity.move
    dsimp only
    unfold isInt at hx hy
    split
    · next hg =>
      unfold wrapInt GRID_COLS GRID_ROWS at hg
      right
      dsimp only
      unfold wrapInt
      omega
    · exact Or.inl ⟨rfl, rfl⟩

theorem handleInput_delta (k : Key → Bool) (e : Entity) (hx : isInt e.x) (hy : isInt e.y) :
    -1 ≤ (handleInput k e).2.x - e.x ∧ (handleInput k e).2.x - e.x ≤ 1 ∧
    -1 ≤ (handleInput k e).2.y - e.y ∧ (handleInput k e).2.y - e.y ≤ 1 := by
  unfold handleInput
  dsimp only
  generalize (k Key.KEY_UP || k Key.KEY_W) = u
  generalize (k Key.KEY_DOWN || k Key.KEY_S) = dn
  generalize (k Key.KEY_LEFT || k Key.KEY_A) = l
  generalize (k Key.KEY_RIGHT || k Key.KEY_D) = rt
  have h1 := cond_move_step u Direction.up (false, e) hx hy
  simp only [Direction.dx, Direction.dy] at h1
  generalize (if u = true then e.move 0 (-1) else (false, e)) = r1 at h1 ⊢
  unfold isInt at hx hy
  have h2 := cond_move_step dn Direction.down r1 (by unfold isInt; omega) (by unfold isInt; omega)
  simp only [Direction.dx, Direction.dy] at h2
  generalize (if dn = true then r1.2.move 0 1 else r1) = r2 at h2 ⊢
  have h3 := cond_move_step l Direction.left r2 (by unfold isInt; omega) (by unfold isInt; omega)
  simp only [Direction.dx, Direction.dy] at h3
  generalize (if l = true then r2.2.move (-1) 0 else r2) = r3 at h3 ⊢
  have h4 := cond_move_step rt Direction.right r3 (by unfold isInt; omega) (by unfold isInt; omega)
  simp only [Direction.dx, Direction.dy] at h4
  generalize (if rt = true then r3.2.move 1 0 else r3) = r4 at h4 ⊢
  omega

/-- C7, as stated, fails: from the initial state, a frame with up and left
both pressed attempts both moves and displaces the entity by `(-1, -1)`, so
`|dx| + |dy| = 2`; the entity does not end where the first match alone (up)
would have put it. -/
theorem C7_diagonal_in_one_frame :
    attempts (pressed [Key.KEY_UP, Key.KEY_LEFT]) = [Direction.up, Direction.left] ∧
    (frame exact (pressed [Key.KEY_UP, Key.KEY_LEFT]) (initial exact)).player.x
      - (initial exact).player.x = -1 ∧
    (frame exact (pressed [Key.KEY_UP, Key.KEY_LEFT]) (initial exact)).player.y
      - (initial exact).player.y = -1 ∧
    ¬ (|(frame exact (pressed [Key.KEY_UP, Key.KEY_LEFT]) (initial exact)).player.x
          - (initial exact).player.x|
        + |(frame exact (pressed [Key.KEY_UP, Key.KEY_LEFT]) (initial exact)).player.y
          - (initial exact).player.y| ≤ 1) ∧
    (frame exact (pressed [Key.KEY_UP, Key.KEY_LEFT]) (initial exact)).player
      ≠ ((initial exact).player.move 0 (-1)).2 := by
  decide

/-- C7 (amended): in one frame every pressed direction is attempted, in the
order up, down, left, right, each attempt on the entity as the previous one
left it.  For an entity whose coordinates are `int` values the frame changes
the position by `(dx, dy)` with `|dx| ≤ 1` and `|dy| ≤ 1`; when exactly one
direction is pressed the frame performs that single `move` and
`|dx| + |dy| ≤ 1`; when none is pressed the entity is unchanged. -/
theorem C7_input_mapping {F : Type} (A : FloatOps F) (s : Game F) (k : Key → Bool)
    (hx : isInt s.player.x) (hy : isInt s.player.y) :
    (frame A k s).player = (attemptAll k s.player).2 ∧
    |(frame A k s).player.x - s.player.x| ≤ 1 ∧
    |(frame A k s).player.y - s.player.y| ≤ 1 ∧
    (∀ d : Direction, attempts k = [d] →
      (frame A k s).player = (s.player.move d.dx d.dy).2 ∧
      |(frame A k s).player.x - s.player.x| + |(frame A k s).player.y - s.player.y| ≤ 1) ∧
    (attempts k = [] → (frame A k s).player = s.player) := by
  have hd := handleInput_delta k s.player hx hy
  rw [frame_player]
  refine ⟨by rw [handleInput_eq_attemptAll], abs_le.mpr ⟨hd.1, hd.2.1⟩,
    abs_le.mpr ⟨hd.2.2.1, hd.2.2.2⟩, ?_, ?_⟩
  · intro d hk
    rw [handleInput_single k d s.player hk]
    refine ⟨rfl, ?_⟩
    have h := cond_move_step true d (false, s.player) hx hy
    simp only [if_true] at h
    have hdx : (d.dx = 0 ∧ (d.dy = 1 ∨ d.dy = -1)) ∨ (d.dy = 0 ∧ (d.dx = 1 ∨ d.dx = -1)) := by
      cases d <;> decide
    rcases h with ⟨h1, h2⟩ | ⟨h1, h2, _⟩
    · rw [h1, h2]; simp
    · rw [h1, h2]
      rcases hdx with ⟨a, b | b⟩ | ⟨a, b | b⟩ <;> rw [a, b] <;> simp
  · intro hk
    rw [handleInput_none k s.player hk]

theorem C7_input_mapping_witness :
    isInt (initial exact).player.x ∧ isInt (initial exact).player.y ∧
    |(frame exact (pressed [Key.KEY_UP, Key.KEY_LEFT, Key.KEY_D]) (initial exact)).player.x
      - (initial exact).player.x| ≤ 1 :=
  ⟨by decide, by decide,
   (C7_input_mapping exact (initial exact) (pressed [Key.KEY_UP, Key.KEY_LEFT, Key.KEY_D])
      (by decide) (by decide)).2.1⟩

/-! ## Retargeting when the position changes -/

set_option maxRecDepth 100000 in
/-- C8, evaluated at the failing input: with the entity in the last column
(after 49 frames of right from the initial state), a frame with up and right
both pressed moves the entity up, but the blocked move right overwrites
`playerMoved` with false: `targetPosition` keeps the pixel centre of the old
cell, which is not that of the new cell, and the delay is not restarted (the
counter goes from 1 to 2). -/
theorem C8_stale_target_at_edge :
    (frames exact (List.replicate 49 (only Key.KEY_RIGHT)) (initial exact)).player.x = 99 ∧
    (frames exact (List.replicate 49 (only Key.KEY_RIGHT)) (initial exact)).player.y = 50 ∧
    (frames exact (List.replicate 49 (only Key.KEY_RIGHT)) (initial exact)).cameraDelayCounter = 1 ∧
    (frame exact (pressed [Key.KEY_UP, Key.KEY_RIGHT])
      (frames exact (List.replicate 49 (only Key.KEY_RIGHT)) (initial exact))).player.x = 99 ∧
    (frame exact (pressed [Key.KEY_UP, Key.KEY_RIGHT])
      (frames exact (List.replicate 49 (only Key.KEY_RIGHT)) (initial exact))).player.y = 49 ∧
    (handleInput (pressed [Key.KEY_UP, Key.KEY_RIGHT])
      (frames exact (List.replicate 49 (only Key.KEY_RIGHT)) (initial exact)).player).1 = false ∧
    (frame exact (pressed [Key.KEY_UP, Key.KEY_RIGHT])
      (frames exact (List.replicate 49 (only Key.KEY_RIGHT)) (initial exact))).targetPosition
      = ⟨2985, 1515⟩ ∧
    pixelCenter exact (frame exact (pressed [Key.KEY_UP, Key.KEY_RIGHT])
      (frames exact (List.replicate 49 (only Key.KEY_RIGHT)) (initial exact))).player
      = ⟨2985, 1485⟩ ∧
    (frame exact (pressed [Key.KEY_UP, Key.KEY_RIGHT])
      (frames exact (List.replicate 49 (only Key.KEY_RIGHT)) (initial exact))).targetPosition
      ≠ pixelCenter exact (frame exact (pressed [Key.KEY_UP, Key.KEY_RIGHT])
          (frames exact (List.replicate 49 (only Key.KEY_RIGHT)) (initial exact))).player ∧
    (frame exact (pressed [Key.KEY_UP, Key.KEY_RIGHT])
      (frames exact (List.replicate 49 (only Key.KEY_RIGHT)) (initial exact))).cameraDelayCounter
      = 2 := by
  decide

/-! ## Quiet frames while MOVING -/

theorem afterDelay_camera {F : Type} (A : FloatOps F) (k : Key → Bool) (s : Game F) :
    (afterDelay A k s).camera = s.camera := by
  unfold afterDelay
  rw [updateDelay_camera, afterInput_camera]

theorem moveCamera_moving {F : Type} (A : FloatOps F) (s : Game F) (hm : s.cameraMoving = true) :
    (moveCamera A s).camera =
      { s.camera with
        target :=
          ⟨A.add s.camera.target.x
              (A.mul (CAMERA_SPEED A) (A.sub s.targetPosition.x s.camera.target.x)),
           A.add s.camera.target.y
              (A.mul (CAMERA_SPEED A) (A.sub s.targetPosition.y s.camera.target.y))⟩ } := by
  simp [moveCamera, hm, lerp]

/-- C10: the MOVING step.  In every frame in which `cameraMoving` is true after
the delay update, each axis of `camera.target` is replaced by
`pan + alpha * (target - pan)` with the same `alpha = CAMERA_SPEED`; the step
leaves `targetPosition`, the counter, the entity and the other camera fields
as they were; and the new x depends only on the old pan x and target x (two
frames agreeing on those get the same x whatever their y values), likewise
for y. -/
theorem C10_moving_step {F : Type} (A : FloatOps F) (s : Game F) (k : Key → Bool)
    (hm : (afterDelay A k s).cameraMoving = true) :
    ((frame A k s).camera.target.x =
        A.add s.camera.target.x
          (A.mul (CAMERA_SPEED A) (A.sub (afterDelay A k s).targetPosition.x s.camera.target.x)) ∧
      (frame A k s).camera.target.y =
        A.add s.camera.target.y
          (A.mul (CAMERA_SPEED A) (A.sub (afterDelay A k s).targetPosition.y s.camera.target.y))) ∧
    ((frame A k s).targetPosition = (afterDelay A k s).targetPosition ∧
      (frame A k s).cameraDelayCounter = (afterDelay A k s).cameraDelayCounter ∧
      (frame A k s).player = (afterDelay A k s).player ∧
      (frame A k s).camera.offset = s.camera.offset ∧
      (frame A k s).camera.rotation = s.camera.rotation ∧
      (frame A k s).camera.zoom = s.camera.zoom) ∧
    (∀ (s2 : Game F) (k2 : Key → Bool), (afterDelay A k2 s2).cameraMoving = true →
      (s2.camera.target.x = s.camera.target.x →
        (afterDelay A k2 s2).targetPosition.x = (afterDelay A k s).targetPosition.x →
        (frame A k2 s2).camera.target.x = (frame A k s).camera.target.x) ∧
      (s2.camera.target.y = s.camera.target.y →
        (afterDelay A k2 s2).targetPosition.y = (afterDelay A k s).targetPosition.y →
        (frame A k2 s2).camera.target.y = (frame A k s).camera.target.y)) := by
  have hcam := moveCamera_moving A (afterDelay A k s) hm
  rw [afterDelay_camera] at hcam
  refine ⟨?_, ?_, ?_⟩
  · unfold frame
    rw [hcam]
    exact ⟨rfl, rfl⟩
  · unfold frame
    rw [moveCamera_targetPosition, moveCamera_counter, moveCamera_player, hcam]
    exact ⟨rfl, rfl, rfl, rfl, rfl, rfl⟩
  · intro s2 k2 hm2
    have hcam2 := moveCamera_moving A (afterDelay A k2 s2) hm2
    rw [afterDelay_camera] at hcam2
    unfold frame
    rw [hcam, hcam2]
    constructor
    · intro h1 h2
      show A.add _ _ = A.add _ _
      rw [h1, h2]
    · intro h1 h2
      show A.add _ _ = A.add _ _
      rw [h1, h2]

theorem C10_moving_step_witness :
    (afterDelay exact noKey (quiet exact 5 (frame exact (only Key.KEY_RIGHT) (initial exact)))).cameraMoving
      = true ∧
    (frame exact noKey (quiet exact 5 (frame exact (only Key.KEY_RIGHT) (initial exact)))).targetPosition
      = (afterDelay exact noKey
          (quiet exact 5 (frame exact (only Key.KEY_RIGHT) (initial exact)))).targetPosition :=
  ⟨by decide,
   (C10_moving_step exact (quiet exact 5 (frame exact (only Key.KEY_RIGHT) (initial exact))) noKey
      (by decide)).2.1.1⟩

/-! ## IDLE is stable -/

theorem move_eq_of_false (e : Entity) (dx dy : Int) (h : (e.move dx dy).1 = false) :
    e.move dx dy = (false, e) := by
  unfold Entity.move at h ⊢
  dsimp only at h ⊢
  split
  · next hg => rw [if_pos hg] at h; exact absurd h Bool.noConfusion
  · rfl

theorem foldl_all_fail (e : Entity) (ds : List Direction)
    (h : ∀ d ∈ ds, (e.move d.dx d.dy).1 = false) :
    ds.foldl (fun r d => r.2.move d.dx d.dy) (false, e) = (false, e) := by
  induction ds with
  | nil => rfl
  | cons d ds ih =>
    rw [List.foldl_cons]
    have hd : (false, e).2.move d.dx d.dy = (false, e) :=
      move_eq_of_false e d.dx d.dy (h d (List.mem_cons_self d ds))
    rw [hd]
    exact ih (fun d' hd' => h d' (List.mem_cons_of_mem d hd'))

theorem handleInput_of_noSuccessfulMove (k : Key → Bool) (e : Entity)
    (h : noSuccessfulMove k e) : handleInput k e = (false, e) := by
  rw [handleInput_eq_attemptAll]
  exact foldl_all_fail e (attempts k) h

theorem frame_noKey_idle {F : Type} (A : FloatOps F) (s : Game F)
    (hm : s.cameraMoving = false) (hc : s.cameraDelayCounter = CAMERA_DELAY_FRAMES) :
    frame A noKey s = s := by
  unfold frame afterDelay
  rw [afterInput_noKey]
  have hu : updateDelay s = s := by
    unfold updateDelay
    simp [hm, hc]
  rw [hu, moveCamera_of_not_moving A s hm]

theorem phase_idle_iff {F : Type} (s : Game F) (hwf : wellFormed s) :
    phase s = Phase.IDLE ↔
      (s.cameraMoving = false ∧ s.cameraDelayCounter = CAMERA_DELAY_FRAMES) := by
  unfold wellFormed CAMERA_DELAY_FRAMES at hwf
  unfold phase CAMERA_DELAY_FRAMES
  cases hm : s.cameraMoving
  · by_cases hc : s.cameraDelayCounter < 7
    · simp [hc]; omega
    · simp [hc]; omega
  · simp

/-! ## Frames without a successful move -/

theorem fixedAt_exact (p : ℚ) : fixedAt exact p := by
  unfold fixedAt lerp CAMERA_SPEED EPSILON exact
  simp

theorem frame_of_noSuccessfulMove {F : Type} (A : FloatOps F) (k : Key → Bool) (s : Game F)
    (h : noSuccessfulMove k s.player) : frame A k s = frame A noKey s :=
  frame_not_moved A k s (handleInput_of_noSuccessfulMove k s.player h)

theorem frame_noKey_player {F : Type} (A : FloatOps F) (s : Game F) :
    (frame A noKey s).player = s.player := by
  rw [frame_player, handleInput_none noKey s.player rfl]

theorem quiet_succ_left {F : Type} (A : FloatOps F) (n : Nat) (s : Game F) :
    quiet A (n + 1) s = quiet A n (frame A noKey s) := rfl

theorem frames_of_noSuccessfulMove {F : Type} (A : FloatOps F) (e : Entity)
    (ks : List (Key → Bool)) (hks : ∀ k ∈ ks, noSuccessfulMove k e) :
    ∀ s : Game F, s.player = e → frames A ks s = quiet A ks.length s := by
  induction ks with
  | nil => intro s _; rfl
  | cons k ks ih =>
    intro s hs
    have hk : noSuccessfulMove k s.player := by
      rw [hs]; exact hks k (List.mem_cons_self k ks)
    show frames A ks (frame A k s) = quiet A (ks.length + 1) s
    rw [frame_of_noSuccessfulMove A k s hk, quiet_succ_left]
    exact ih (fun k' hk' => hks k' (List.mem_cons_of_mem k hk')) (frame A noKey s)
      (by rw [frame_noKey_player, hs])

theorem quiet_idle {F : Type} (A : FloatOps F) (s : Game F)
    (hm : s.cameraMoving = false) (hc : s.cameraDelayCounter = CAMERA_DELAY_FRAMES) :
    ∀ n : Nat, quiet A n s = s := by
  intro n
  induction n with
  | zero => rfl
  | succ n ih => rw [quiet_succ, ih, frame_noKey_idle A s hm hc]

theorem quiet_add {F : Type} (A : FloatOps F) (m n : Nat) (s : Game F) :
    quiet A (m + n) s = quiet A n (quiet A m s) := by
  unfold quiet
  rw [List.replicate_add, frames_append]

theorem moveCamera_on_target {F : Type} (A : FloatOps F) (s : Game F)
    (hm : s.cameraMoving = true) (ht : s.targetPosition = s.camera.target)
    (hx : fixedAt A s.camera.target.x) (hy : fixedAt A s.camera.target.y) :
    moveCamera A s = { s with cameraMoving := false } := by
  unfold fixedAt at hx hy
  unfold moveCamera
  rw [if_pos hm, ht]
  dsimp only
  rw [hx.1, hy.1, hx.2, hy.2]
  rfl

theorem initial_target {F : Type} (A : FloatOps F) :
    (initial A).targetPosition = (initial A).camera.target := rfl

theorem quiet_seven_initial {F : Type} (A : FloatOps F)
    (hx : fixedAt A (initial A).camera.target.x) (hy : fixedAt A (initial A).camera.target.y) :
    quiet A 7 (initial A) = { initial A with cameraDelayCounter := CAMERA_DELAY_FRAMES } := by
  have h6 : quiet A 6 (initial A) = { initial A with cameraDelayCounter := 6 } :=
    quiet_waiting A 6 (initial A) rfl
      (by show (0 : Int) + ((6 : Nat) : Int) < CAMERA_DELAY_FRAMES; decide)
  rw [quiet_succ, h6, frame_quiet_trigger A _ rfl (by rfl)]
  exact moveCamera_on_target A _ rfl (initial_target A) hx hy

theorem quiet_initial_late {F : Type} (A : FloatOps F)
    (hx : fixedAt A (initial A).camera.target.x) (hy : fixedAt A (initial A).camera.target.y)
    (n : Nat) (hn : 7 ≤ n) :
    quiet A n (initial A) = { initial A with cameraDelayCounter := CAMERA_DELAY_FRAMES } := by
  obtain ⟨m, rfl⟩ := Nat.exists_eq_add_of_le hn
  rw [quiet_add, quiet_seven_initial A hx hy]
  exact quiet_idle A _ rfl rfl m

theorem quiet_initial_early {F : Type} (A : FloatOps F) (n : Nat) (hn : n < 7) :
    quiet A n (initial A) = { initial A with cameraDelayCounter := (n : Int) } := by
  have h := quiet_waiting A n (initial A) rfl
    (by show (0 : Int) + (n : Int) < CAMERA_DELAY_FRAMES; unfold CAMERA_DELAY_FRAMES; omega)
  rw [h]
  show ({ initial A with cameraDelayCounter := (0 : Int) + (n : Int) } : Game F) = _
  rw [zero_add]

/-- C11: IDLE is stable.  In the IDLE state (`cameraMoving` false, counter at
the threshold) a frame in which no move succeeds (no direction pressed, or the
one pressed direction blocked, or every pressed direction blocked) leaves the
whole state unchanged; a frame after which the controller is not IDLE
contains a successful move, and a frame whose `playerMoved` flag is set ends
in `WAITING`. -/
theorem C11_idle_stable {F : Type} (A : FloatOps F) (s : Game F) (k : Key → Bool)
    (hm : s.cameraMoving = false) (hc : s.cameraDelayCounter = CAMERA_DELAY_FRAMES) :
    (attempts k = [] → frame A k s = s) ∧
    (∀ d : Direction, attempts k = [d] → (s.player.move d.dx d.dy).1 = false →
      frame A k s = s) ∧
    (noSuccessfulMove k s.player → frame A k s = s) ∧
    (phase (frame A k s) ≠ Phase.IDLE →
      ∃ d ∈ attempts k, (s.player.move d.dx d.dy).1 = true) ∧
    ((handleInput k s.player).1 = true → phase (frame A k s) = Phase.WAITING) := by
  have hstay : noSuccessfulMove k s.player → frame A k s = s := by
    intro h
    rw [frame_of_noSuccessfulMove A k s h, frame_noKey_idle A s hm hc]
  have hidle : phase s = Phase.IDLE := by
    unfold phase
    simp [hm, hc]
  refine ⟨?_, ?_, hstay, ?_, ?_⟩
  · intro h0
    apply hstay
    intro d hd
    rw [h0] at hd
    exact absurd hd (List.not_mem_nil d)
  · intro d h1 hb
    apply hstay
    intro d' hd'
    rw [h1, List.mem_singleton] at hd'
    rw [hd']
    exact hb
  · intro hne
    by_contra hex
    apply hne
    have hall : noSuccessfulMove k s.player := by
      intro d hd
      cases hmv : (s.player.move d.dx d.dy).1
      · rfl
      · exact absurd ⟨d, hd, hmv⟩ hex
    rw [hstay hall]
    exact hidle
  · intro hmoved
    rw [frame_moved A k s hmoved]
    simp [phase, CAMERA_DELAY_FRAMES]

theorem C11_idle_stable_witness :
    (quiet exact 7 (initial exact)).cameraMoving = false ∧
    (quiet exact 7 (initial exact)).cameraDelayCounter = CAMERA_DELAY_FRAMES ∧
    frame exact noKey (quiet exact 7 (initial exact)) = quiet exact 7 (initial exact) :=
  have h := quiet_seven_initial exact (fixedAt_exact _) (fixedAt_exact _)
  ⟨by rw [h]; rfl, by rw [h],
   (C11_idle_stable exact (quiet exact 7 (initial exact)) noKey
      (by rw [h]; rfl) (by rw [h])).1 (by decide)⟩

/-! ## The phase encoding is well-formed -/

theorem mainLoop_wellFormed {F : Type} (A : FloatOps F) (tr : List FrameInput) :
    ∀ s : Game F, wellFormed s → wellFormed (mainLoop A tr s) := by
  induction tr with
  | nil => intro s h; exact h
  | cons i is ih =>
    intro s h
    unfold mainLoop
    split
    · exact h
    · split
      · exact h
      · exact ih (frame A i.IsKeyPressed s) (frame_wellFormed A i.IsKeyPressed s h)

theorem phases_exclusive {F : Type} (s : Game F) (h : wellFormed s) :
    ((s.cameraMoving = false ∧ s.cameraDelayCounter = CAMERA_DELAY_FRAMES) ∨
      (s.cameraMoving = false ∧ s.cameraDelayCounter < CAMERA_DELAY_FRAMES) ∨
      s.cameraMoving = true) ∧
    ¬ ((s.cameraMoving = false ∧ s.cameraDelayCounter = CAMERA_DELAY_FRAMES) ∧
      (s.cameraMoving = false ∧ s.cameraDelayCounter < CAMERA_DELAY_FRAMES)) ∧
    ¬ ((s.cameraMoving = false ∧ s.cameraDelayCounter = CAMERA_DELAY_FRAMES) ∧
      s.cameraMoving = true) ∧
    ¬ ((s.cameraMoving = false ∧ s.cameraDelayCounter < CAMERA_DELAY_FRAMES) ∧
      s.cameraMoving = true) := by
  unfold wellFormed CAMERA_DELAY_FRAMES at h
  unfold CAMERA_DELAY_FRAMES
  cases hm : s.cameraMoving
  · refine ⟨?_, ?_, ?_, ?_⟩
    · by_cases hc : s.cameraDelayCounter < 7
      · exact Or.inr (Or.inl ⟨rfl, hc⟩)
      · exact Or.inl ⟨rfl, by omega⟩
    · rintro ⟨⟨_, h1⟩, ⟨_, h2⟩⟩; omega
    · rintro ⟨_, h2⟩; exact Bool.noConfusion h2
    · rintro ⟨_, h2⟩; exact Bool.noConfusion h2
  · refine ⟨Or.inr (Or.inr rfl), ?_, ?_, ?_⟩
    · rintro ⟨⟨h1, _⟩, _⟩; exact Bool.noConfusion h1
    · rintro ⟨⟨h1, _⟩, _⟩; exact Bool.noConfusion h1
    · rintro ⟨⟨h1, _⟩, _⟩; exact Bool.noConfusion h1

/-- C13: the phase encoding is well-formed.  From the initial state, after
every sequence of frames with any keys (and after the loop on every input
trace), `0 ≤ cameraDelayCounter ≤ CAMERA_DELAY_FRAMES`, so the counter stays
an `int`, and `cameraMoving` is true only with the counter at the threshold;
hence exactly one of IDLE (not moving, counter at the threshold), WAITING (not
moving, counter below it) and MOVING holds. -/
theorem C13_phase_encoding {F : Type} (A : FloatOps F) :
    (∀ ks : List (Key → Bool),
      (0 ≤ (frames A ks (initial A)).cameraDelayCounter ∧
        (frames A ks (initial A)).cameraDelayCounter ≤ CAMERA_DELAY_FRAMES ∧
        isInt (frames A ks (initial A)).cameraDelayCounter ∧
        ((frames A ks (initial A)).cameraMoving = true →
          (frames A ks (initial A)).cameraDelayCounter = CAMERA_DELAY_FRAMES)) ∧
      (((frames A ks (initial A)).cameraMoving = false ∧
          (frames A ks (initial A)).cameraDelayCounter = CAMERA_DELAY_FRAMES) ∨
        ((frames A ks (initial A)).cameraMoving = false ∧
          (frames A ks (initial A)).cameraDelayCounter < CAMERA_DELAY_FRAMES) ∨
        (frames A ks (initial A)).cameraMoving = true) ∧
      ¬ (((frames A ks (initial A)).cameraMoving = false ∧
          (frames A ks (initial A)).cameraDelayCounter = CAMERA_DELAY_FRAMES) ∧
        ((frames A ks (initial A)).cameraMoving = false ∧
          (frames A ks (initial A)).cameraDelayCounter < CAMERA_DELAY_FRAMES)) ∧
      ¬ (((frames A ks (initial A)).cameraMoving = false ∧
          (frames A ks (initial A)).cameraDelayCounter = CAMERA_DELAY_FRAMES) ∧
        (frames A ks (initial A)).cameraMoving = true) ∧
      ¬ (((frames A ks (initial A)).cameraMoving = false ∧
          (frames A ks (initial A)).cameraDelayCounter < CAMERA_DELAY_FRAMES) ∧
        (frames A ks (initial A)).cameraMoving = true)) ∧
    (∀ tr : List FrameInput, wellFormed (mainLoop A tr (initial A))) := by
  refine ⟨fun ks => ?_, fun tr => mainLoop_wellFormed A tr (initial A) (initial_wellFormed A)⟩
  have h := frames_wellFormed A ks (initial A) (initial_wellFormed A)
  refine ⟨⟨h.1, h.2.1, ?_, h.2.2⟩, phases_exclusive _ h⟩
  unfold wellFormed CAMERA_DELAY_FRAMES at h
  unfold isInt
  omega

/-! ## Quiet start -/

/-- C15: quiet start.  In the initial state `camera.target` equals
`targetPosition` equals the pixel centre of the entity.  For every sequence of
frames in none of which a move succeeds, the camera never changes; the
controller is `WAITING` with the counter equal to the number of frames while
that number is below `CAMERA_DELAY_FRAMES`, and from `CAMERA_DELAY_FRAMES`
frames on it is `IDLE`, in one and the same state.  The arithmetic is any one
that keeps a pan already on its target in place (`fixedAt`), as exact
arithmetic does. -/
theorem C15_quiet_start {F : Type} (A : FloatOps F)
    (hx : fixedAt A (initial A).camera.target.x) (hy : fixedAt A (initial A).camera.target.y)
    (ks : List (Key → Bool)) (hks : ∀ k ∈ ks, noSuccessfulMove k (initial A).player) :
    ((initial A).camera.target = (initial A).targetPosition ∧
      (initial A).targetPosition = pixelCenter A (initial A).player) ∧
    (frames A ks (initial A)).camera.target = (initial A).camera.target ∧
    (frames A ks (initial A)).camera = (initial A).camera ∧
    ((ks.length : Int) < CAMERA_DELAY_FRAMES →
      phase (frames A ks (initial A)) = Phase.WAITING ∧
      (frames A ks (initial A)).cameraDelayCounter = (ks.length : Int)) ∧
    (CAMERA_DELAY_FRAMES ≤ (ks.length : Int) →
      phase (frames A ks (initial A)) = Phase.IDLE ∧
      frames A ks (initial A) = { initial A with cameraDelayCounter := CAMERA_DELAY_FRAMES }) := by
  have hq : frames A ks (initial A) = quiet A ks.length (initial A) :=
    frames_of_noSuccessfulMove A (initial A).player ks hks (initial A) rfl
  have hcases : (ks.length < 7 ∧
        frames A ks (initial A) = { initial A with cameraDelayCounter := (ks.length : Int) }) ∨
      (7 ≤ ks.length ∧
        frames A ks (initial A)
          = { initial A with cameraDelayCounter := CAMERA_DELAY_FRAMES }) := by
    rcases Nat.lt_or_ge ks.length 7 with h | h
    · exact Or.inl ⟨h, by rw [hq, quiet_initial_early A _ h]⟩
    · exact Or.inr ⟨h, by rw [hq, quiet_initial_late A hx hy _ h]⟩
  refine ⟨⟨rfl, rfl⟩, ?_, ?_, ?_, ?_⟩
  · rcases hcases with ⟨_, h⟩ | ⟨_, h⟩ <;> rw [h]
  · rcases hcases with ⟨_, h⟩ | ⟨_, h⟩ <;> rw [h]
  · intro hlt
    unfold CAMERA_DELAY_FRAMES at hlt
    rcases hcases with ⟨hl, h⟩ | ⟨hl, _⟩
    · rw [h]
      refine ⟨?_, rfl⟩
      have hl' : (ks.length : Int) < 7 := by omega
      unfold phase CAMERA_DELAY_FRAMES
      show (if false = true then Phase.MOVING
        else if (ks.length : Int) < 7 then Phase.WAITING else Phase.IDLE) = Phase.WAITING
      simp [hl']
    · omega
  · intro hge
    unfold CAMERA_DELAY_FRAMES at hge
    rcases hcases with ⟨hl, _⟩ | ⟨_, h⟩
    · omega
    · rw [h]
      exact ⟨rfl, rfl⟩

theorem C15_quiet_start_witness :
    fixedAt exact (initial exact).camera.target.x ∧
    fixedAt exact (initial exact).camera.target.y ∧
    (∀ k ∈ List.replicate 9 noKey, noSuccessfulMove k (initial exact).player) ∧
    (frames exact (List.replicate 9 noKey) (initial exact)).camera.target
      = (initial exact).camera.target :=
  ⟨fixedAt_exact _, fixedAt_exact _, by decide,
   (C15_quiet_start exact (fixedAt_exact _) (fixedAt_exact _)
      (List.replicate 9 noKey) (by decide)).2.1⟩

/-! ## Binary32 rounding: nearest integer -/

theorem roundHalfEven_cases (z : ℚ) :
    roundHalfEven z = ⌊z⌋ ∧ z - ⌊z⌋ ≤ 1 / 2 ∨ roundHalfEven z = ⌊z⌋ + 1 ∧ 1 / 2 ≤ z - ⌊z⌋ := by
  unfold roundHalfEven
  split_ifs with h1 h2 h3
  · exact Or.inl ⟨rfl, le_of_lt h1⟩
  · exact Or.inr ⟨rfl, le_of_lt h2⟩
  · exact Or.inl ⟨rfl, not_lt.mp h2⟩
  · exact Or.inr ⟨rfl, not_lt.mp h1⟩

theorem roundHalfEven_intCast (n : ℤ) : roundHalfEven (n : ℚ) = n := by
  unfold roundHalfEven
  simp

theorem roundHalfEven_err (z : ℚ) : |(roundHalfEven z : ℚ) - z| ≤ 1 / 2 := by
  have h0 : (⌊z⌋ : ℚ) ≤ z := Int.floor_le z
  have h1 : z < ⌊z⌋ + 1 := Int.lt_floor_add_one z
  rw [abs_le]
  rcases roundHalfEven_cases z with ⟨h, hf⟩ | ⟨h, hf⟩
  · rw [h]; constructor <;> linarith
  · rw [h]; push_cast; constructor <;> linarith

theorem roundHalfEven_mono {z w : ℚ} (h : z ≤ w) : roundHalfEven z ≤ roundHalfEven w := by
  have hfl : ⌊z⌋ ≤ ⌊w⌋ := Int.floor_mono h
  rcases lt_or_eq_of_le hfl with hlt | heq
  · have hz : roundHalfEven z ≤ ⌊z⌋ + 1 := by
      rcases roundHalfEven_cases z with ⟨h1, _⟩ | ⟨h1, _⟩ <;> omega
    have hw : ⌊w⌋ ≤ roundHalfEven w := by
      rcases roundHalfEven_cases w with ⟨h1, _⟩ | ⟨h1, _⟩ <;> omega
    omega
  · have hfr : z - ⌊z⌋ ≤ w - ⌊w⌋ := by rw [heq]; linarith
    unfold roundHalfEven
    rw [heq] at hfr ⊢
    split_ifs <;> first | omega | (exfalso; linarith)

theorem roundHalfEven_neg (z : ℚ) : roundHalfEven (-z) = -roundHalfEven z := by
  have h0 : (⌊z⌋ : ℚ) ≤ z := Int.floor_le z
  have h1 : z < ⌊z⌋ + 1 := Int.lt_floor_add_one z
  rcases eq_or_lt_of_le h0 with heq | hlt
  · have hz : z = ((⌊z⌋ : ℤ) : ℚ) := heq.symm
    rw [hz, ← Int.cast_neg, roundHalfEven_intCast, roundHalfEven_intCast]
  · have hfl : ⌊-z⌋ = -⌊z⌋ - 1 := by
      rw [Int.floor_eq_iff]
      push_cast
      constructor <;> linarith
    unfold roundHalfEven
    rw [hfl]
    push_cast
    split_ifs <;> first | omega | (exfalso; linarith)

theorem roundHalfEven_nonneg {z : ℚ} (h : 0 ≤ z) : 0 ≤ roundHalfEven z := by
  have := roundHalfEven_mono h
  rwa [← Int.cast_zero, roundHalfEven_intCast] at this

theorem roundHalfEven_le_two_mul {z : ℚ} (h : 0 ≤ z) : (roundHalfEven z : ℚ) ≤ 2 * z := by
  have h0 : (⌊z⌋ : ℚ) ≤ z := Int.floor_le z
  rcases roundHalfEven_cases z with ⟨h1, _⟩ | ⟨h1, hf⟩
  · rw [h1]; linarith
  · rw [h1]; push_cast
    have hfl : (0 : ℚ) ≤ ⌊z⌋ := by exact_mod_cast Int.floor_nonneg.mpr h
    linarith

/-! ## Binary32 rounding: bit length -/

theorem bitLength_zero (fuel : Nat) : bitLength fuel 0 = 0 := by
  cases fuel <;> simp [bitLength]

theorem bitLength_spec (fuel : Nat) :
    ∀ n : Nat, n ≤ fuel → n < 2 ^ bitLength fuel n ∧ (1 ≤ n → 2 ^ (bitLength fuel n - 1) ≤ n) := by
  induction fuel with
  | zero =>
    intro n hn
    have h0 : n = 0 := Nat.le_zero.mp hn
    subst h0
    simp [bitLength]
  | succ f ih =>
    intro n hn
    by_cases h0 : n = 0
    · subst h0
      simp [bitLength]
    · have hhalf : n / 2 ≤ f := by omega
      obtain ⟨hu, hl⟩ := ih (n / 2) hhalf
      have hb : bitLength (f + 1) n = bitLength f (n / 2) + 1 := by simp [bitLength, h0]
      rw [hb]
      constructor
      · rw [pow_succ]; omega
      · intro _
        rw [Nat.add_sub_cancel]
        by_cases h1 : n / 2 = 0
        · rw [h1, bitLength_zero]; simp; omega
        · have h2 := hl (by omega)
          have h3 : 2 ^ bitLength f (n / 2) = 2 ^ (bitLength f (n / 2) - 1) * 2 := by
            rw [← pow_succ]
            congr 1
            have : 1 ≤ bitLength f (n / 2) := by
              by_contra hc
              have hz : bitLength f (n / 2) = 0 := by omega
              rw [hz] at hu
              simp at hu
              exact h1 hu
            omega
          rw [h3]; omega

theorem lt_two_pow_bits (n : Nat) : n < 2 ^ bitLength n n := (bitLength_spec n n (le_refl n)).1

theorem two_pow_bits_le (n : Nat) (h : 1 ≤ n) : 2 ^ (bitLength n n - 1) ≤ n :=
  (bitLength_spec n n (le_refl n)).2 h

theorem bits_mono {a b : Nat} (h : a ≤ b) : bitLength a a ≤ bitLength b b := by
  by_cases ha : a = 0
  · subst ha; rw [bitLength_zero]; exact Nat.zero_le _
  · have h1 := two_pow_bits_le a (by omega)
    have h2 := lt_two_pow_bits b
    have h3 : 2 ^ (bitLength a a - 1) < 2 ^ bitLength b b := by omega
    have h4 := (Nat.pow_lt_pow_iff_right (by decide : 1 < 2)).mp h3
    omega

theorem bits_le_of_lt_two_pow {n j : Nat} (h : n < 2 ^ j) : bitLength n n ≤ j := by
  by_cases hn : n = 0
  · subst hn; rw [bitLength_zero]; exact Nat.zero_le _
  · have h1 := two_pow_bits_le n (by omega)
    have h3 : 2 ^ (bitLength n n - 1) < 2 ^ j := by omega
    have h4 := (Nat.pow_lt_pow_iff_right (by decide : 1 < 2)).mp h3
    omega

/-! ## Binary32 rounding: spacing -/

theorem cast_two_pow (k : ℕ) : (((2 : ℕ) ^ k : ℕ) : ℚ) = (2 : ℚ) ^ k := by
  rw [Nat.cast_pow]
  rfl

theorem ulpExponent_eq (y : ℚ) :
    ulpExponent y = bitLength ⌊|y| * 2 ^ 149⌋.toNat ⌊|y| * 2 ^ 149⌋.toNat - 24 := by
  unfold ulpExponent
  rw [cast_two_pow]

theorem ulp32_eq (y : ℚ) : ulp32 y = (2 : ℚ) ^ ulpExponent y / 2 ^ 149 := by
  unfold ulp32
  rw [cast_two_pow, cast_two_pow]

theorem ulp32_pos (y : ℚ) : 0 < ulp32 y := by
  rw [ulp32_eq]
  positivity

theorem ulpExponent_neg (y : ℚ) : ulpExponent (-y) = ulpExponent y := by
  unfold ulpExponent
  rw [abs_neg]

theorem ulp32_neg (y : ℚ) : ulp32 (-y) = ulp32 y := by
  unfold ulp32
  rw [ulpExponent_neg]

theorem ulpExponent_mono {x y : ℚ} (h : |x| ≤ |y|) : ulpExponent x ≤ ulpExponent y := by
  rw [ulpExponent_eq, ulpExponent_eq]
  have h1 : |x| * 2 ^ 149 ≤ |y| * 2 ^ 149 := mul_le_mul_of_nonneg_right h (by positivity)
  have h2 : ⌊|x| * 2 ^ 149⌋.toNat ≤ ⌊|y| * 2 ^ 149⌋.toNat :=
    Int.toNat_le_toNat (Int.floor_mono h1)
  have := bits_mono h2
  omega

theorem div_ulp32 (y : ℚ) : y / ulp32 y = y * 2 ^ 149 / 2 ^ ulpExponent y := by
  rw [ulp32_eq]
  field_simp

/-- For `0 ≤ y` the scaled value is below `2^(k+24)`. -/
theorem scaled_lt (y : ℚ) (hy : 0 ≤ y) :
    y * 2 ^ 149 < 2 ^ (ulpExponent y + 24) := by
  have hY : (0 : ℚ) ≤ y * 2 ^ 149 := by positivity
  have hfl : 0 ≤ ⌊y * 2 ^ 149⌋ := Int.floor_nonneg.mpr hY
  have h1 : y * 2 ^ 149 < (⌊y * 2 ^ 149⌋ : ℚ) + 1 := Int.lt_floor_add_one _
  have hm := lt_two_pow_bits ⌊y * 2 ^ 149⌋.toNat
  have hk : bitLength ⌊y * 2 ^ 149⌋.toNat ⌊y * 2 ^ 149⌋.toNat ≤ ulpExponent y + 24 := by
    rw [ulpExponent_eq, abs_of_nonneg hy]
    omega
  have h2 : ⌊y * 2 ^ 149⌋.toNat + 1 ≤ 2 ^ (ulpExponent y + 24) :=
    le_trans hm (Nat.pow_le_pow_right (by decide) hk)
  have h3 : ((⌊y * 2 ^ 149⌋.toNat : ℤ) : ℚ) + 1 ≤ 2 ^ (ulpExponent y + 24) := by
    exact_mod_cast h2
  rw [Int.toNat_of_nonneg hfl] at h3
  linarith

/-- For `0 ≤ y` with a spacing above the smallest, the scaled value is at least `2^(k+23)`. -/
theorem le_scaled (y : ℚ) (hy : 0 ≤ y) (hk : 1 ≤ ulpExponent y) :
    (2 : ℚ) ^ (ulpExponent y + 23) ≤ y * 2 ^ 149 := by
  have hY : (0 : ℚ) ≤ y * 2 ^ 149 := by positivity
  have hfl : 0 ≤ ⌊y * 2 ^ 149⌋ := Int.floor_nonneg.mpr hY
  have h1 : (⌊y * 2 ^ 149⌋ : ℚ) ≤ y * 2 ^ 149 := Int.floor_le _
  have hb : bitLength ⌊y * 2 ^ 149⌋.toNat ⌊y * 2 ^ 149⌋.toNat = ulpExponent y + 24 := by
    rw [ulpExponent_eq, abs_of_nonneg hy] at hk ⊢
    omega
  have hm1 : 1 ≤ ⌊y * 2 ^ 149⌋.toNat := by
    by_contra hc
    have h0 : ⌊y * 2 ^ 149⌋.toNat = 0 := by omega
    rw [h0, bitLength_zero] at hb
    omega
  have hm := two_pow_bits_le ⌊y * 2 ^ 149⌋.toNat hm1
  rw [hb] at hm
  have h2 : 2 ^ (ulpExponent y + 23) ≤ ⌊y * 2 ^ 149⌋.toNat := by
    have : ulpExponent y + 24 - 1 = ulpExponent y + 23 := by omega
    rwa [this] at hm
  have h3 : ((2 : ℚ) ^ (ulpExponent y + 23)) ≤ ((⌊y * 2 ^ 149⌋.toNat : ℤ) : ℚ) := by
    exact_mod_cast h2
  rw [Int.toNat_of_nonneg hfl] at h3
  linarith

/-! ## Binary32 rounding: monotonicity and error -/

theorem round32_neg (y : ℚ) : round32 (-y) = -round32 y := by
  unfold round32
  rw [ulp32_neg, neg_div, roundHalfEven_neg]
  push_cast
  ring

theorem round32_err (y : ℚ) : |round32 y - y| ≤ ulp32 y / 2 := by
  have hu := ulp32_pos y
  have h := roundHalfEven_err (y / ulp32 y)
  have e : round32 y - y = ((roundHalfEven (y / ulp32 y) : ℚ) - y / ulp32 y) * ulp32 y := by
    unfold round32
    field_simp
  rw [e, abs_mul, abs_of_pos hu]
  nlinarith

theorem round32_nonneg {y : ℚ} (hy : 0 ≤ y) : 0 ≤ round32 y := by
  unfold round32
  have h : 0 ≤ roundHalfEven (y / ulp32 y) :=
    roundHalfEven_nonneg (div_nonneg hy (le_of_lt (ulp32_pos y)))
  have h2 : (0 : ℚ) ≤ (roundHalfEven (y / ulp32 y) : ℚ) := by exact_mod_cast h
  exact mul_nonneg h2 (le_of_lt (ulp32_pos y))

theorem round32_nonpos {y : ℚ} (hy : y ≤ 0) : round32 y ≤ 0 := by
  have h := round32_nonneg (neg_nonneg.mpr hy)
  rw [round32_neg] at h
  linarith

theorem round32_le_two_mul {y : ℚ} (hy : 0 ≤ y) : round32 y ≤ 2 * y := by
  have hu := ulp32_pos y
  have h := roundHalfEven_le_two_mul (div_nonneg hy (le_of_lt hu))
  unfold round32
  calc (roundHalfEven (y / ulp32 y) : ℚ) * ulp32 y
      ≤ 2 * (y / ulp32 y) * ulp32 y := mul_le_mul_of_nonneg_right h (le_of_lt hu)
    _ = 2 * y := by field_simp

theorem two_mul_le_round32 {y : ℚ} (hy : y ≤ 0) : 2 * y ≤ round32 y := by
  have h := round32_le_two_mul (neg_nonneg.mpr hy)
  rw [round32_neg] at h
  linarith

theorem round32_le_pow (y : ℚ) (hy : 0 ≤ y) :
    round32 y ≤ 2 ^ (ulpExponent y + 24) / 2 ^ 149 := by
  have h1 : y / ulp32 y ≤ ((2 ^ 24 : ℤ) : ℚ) := by
    rw [div_ulp32, div_le_iff₀ (by positivity)]
    have h := scaled_lt y hy
    rw [pow_add] at h
    push_cast
    linarith
  have h2 := roundHalfEven_mono h1
  rw [roundHalfEven_intCast] at h2
  have h3 : (roundHalfEven (y / ulp32 y) : ℚ) ≤ 2 ^ 24 := by exact_mod_cast h2
  unfold round32
  calc (roundHalfEven (y / ulp32 y) : ℚ) * ulp32 y
      ≤ 2 ^ 24 * ulp32 y := mul_le_mul_of_nonneg_right h3 (le_of_lt (ulp32_pos y))
    _ = 2 ^ (ulpExponent y + 24) / 2 ^ 149 := by rw [ulp32_eq, pow_add]; ring

theorem pow_le_round32 (y : ℚ) (hy : 0 ≤ y) (hk : 1 ≤ ulpExponent y) :
    (2 : ℚ) ^ (ulpExponent y + 23) / 2 ^ 149 ≤ round32 y := by
  have h1 : (((2 ^ 23 : ℤ)) : ℚ) ≤ y / ulp32 y := by
    rw [div_ulp32, le_div_iff₀ (by positivity)]
    have h := le_scaled y hy hk
    rw [pow_add] at h
    push_cast
    linarith
  have h2 := roundHalfEven_mono h1
  rw [roundHalfEven_intCast] at h2
  have h3 : (2 : ℚ) ^ 23 ≤ (roundHalfEven (y / ulp32 y) : ℚ) := by exact_mod_cast h2
  unfold round32
  calc (2 : ℚ) ^ (ulpExponent y + 23) / 2 ^ 149
      = 2 ^ 23 * ulp32 y := by rw [ulp32_eq, pow_add]; ring
    _ ≤ (roundHalfEven (y / ulp32 y) : ℚ) * ulp32 y :=
        mul_le_mul_of_nonneg_right h3 (le_of_lt (ulp32_pos y))

theorem round32_mono_nonneg {x y : ℚ} (hx : 0 ≤ x) (hxy : x ≤ y) : round32 x ≤ round32 y := by
  have hy : 0 ≤ y := le_trans hx hxy
  have hk : ulpExponent x ≤ ulpExponent y :=
    ulpExponent_mono (by rw [abs_of_nonneg hx, abs_of_nonneg hy]; exact hxy)
  rcases Nat.eq_or_lt_of_le hk with heq | hlt
  · have hu : ulp32 x = ulp32 y := by unfold ulp32; rw [heq]
    have h1 : x / ulp32 x ≤ y / ulp32 y := by
      rw [hu]
      exact div_le_div_of_nonneg_right hxy (le_of_lt (ulp32_pos y))
    have h2 : (roundHalfEven (x / ulp32 x) : ℚ) ≤ (roundHalfEven (y / ulp32 y) : ℚ) := by
      exact_mod_cast roundHalfEven_mono h1
    unfold round32
    rw [hu] at h2 ⊢
    exact mul_le_mul_of_nonneg_right h2 (le_of_lt (ulp32_pos y))
  · have h1 := round32_le_pow x hx
    have h2 := pow_le_round32 y hy (by omega)
    have h3 : (2 : ℚ) ^ (ulpExponent x + 24) ≤ 2 ^ (ulpExponent y + 23) :=
      pow_le_pow_right₀ (by norm_num) (by omega)
    have h4 : (2 : ℚ) ^ (ulpExponent x + 24) / 2 ^ 149 ≤ 2 ^ (ulpExponent y + 23) / 2 ^ 149 :=
      div_le_div_of_nonneg_right h3 (by positivity)
    linarith

theorem round32_mono {x y : ℚ} (hxy : x ≤ y) : round32 x ≤ round32 y := by
  rcases le_total 0 x with hx | hx
  · exact round32_mono_nonneg hx hxy
  · rcases le_total 0 y with hy | hy
    · exact le_trans (round32_nonpos hx) (round32_nonneg hy)
    · have h := round32_mono_nonneg (neg_nonneg.mpr hy) (neg_le_neg hxy)
      rw [round32_neg, round32_neg] at h
      linarith

theorem ulp32_le_of_abs_le {y : ℚ} (hy : |y| ≤ 4096) : ulp32 y ≤ 1 / 2048 := by
  have hk : ulpExponent y ≤ 138 := by
    rw [ulpExponent_eq]
    have hq : |y| * 2 ^ 149 < (((2 ^ 162 : ℕ) : ℤ) : ℚ) := by
      have h1 : |y| * 2 ^ 149 ≤ 4096 * 2 ^ 149 :=
        mul_le_mul_of_nonneg_right hy (by positivity)
      have h2 : (4096 : ℚ) * 2 ^ 149 < 2 ^ 162 := by norm_num
      push_cast
      linarith
    have h0 : 0 ≤ ⌊|y| * 2 ^ 149⌋ :=
      Int.floor_nonneg.mpr (mul_nonneg (abs_nonneg y) (by positivity))
    have hnat : ⌊|y| * 2 ^ 149⌋.toNat < 2 ^ 162 :=
      (Int.toNat_lt h0).mpr (Int.floor_lt.mpr hq)
    have := bits_le_of_lt_two_pow hnat
    omega
  rw [ulp32_eq]
  have h1 : (2 : ℚ) ^ ulpExponent y ≤ 2 ^ 138 := pow_le_pow_right₀ (by norm_num) hk
  rw [div_le_iff₀ (by positivity)]
  calc (2 : ℚ) ^ ulpExponent y ≤ 2 ^ 138 := h1
    _ = 1 / 2048 * 2 ^ 149 := by norm_num


/-! ## Traces of the program, evaluated in binary32

The states below are computed by running `frame` in the `binary32`
arithmetic, a few frames at a time. -/

theorem scenarioMoved_eq :
    scenarioMoved =
      { player := ⟨51, 50, BLUE⟩
        camera :=
          { offset := ⟨400, 300⟩
            target := ⟨1515, 1515⟩
            rotation := 0
            zoom := 1 }
        targetPosition := ⟨1545, 1515⟩
        cameraDelayCounter := 1
        cameraMoving := false } := by
  decide!

theorem scenario_q13 :
    quiet binary32 13 scenarioMoved =
      { player := ⟨51, 50, BLUE⟩
        camera :=
          { offset := ⟨400, 300⟩
            target := ⟨783157 / 512, 1515⟩
            rotation := 0
            zoom := 1 }
        targetPosition := ⟨1545, 1515⟩
        cameraDelayCounter := 7
        cameraMoving := true } := by
  rw [scenarioMoved_eq]; decide!

theorem scenario_q26 :
    quiet binary32 26 scenarioMoved =
      { player := ⟨51, 50, BLUE⟩
        camera :=
          { offset := ⟨400, 300⟩
            target := ⟨1576747 / 1024, 1515⟩
            rotation := 0
            zoom := 1 }
        targetPosition := ⟨1545, 1515⟩
        cameraDelayCounter := 7
        cameraMoving := true } := 
  (quiet_add binary32 13 13 scenarioMoved).trans (by rw [scenario_q13]; decide!)

theorem scenario_q39 :
    quiet binary32 39 scenarioMoved =
      { player := ⟨51, 50, BLUE⟩
        camera :=
          { offset := ⟨400, 300⟩
            target := ⟨6321105 / 4096, 1515⟩
            rotation := 0
            zoom := 1 }
        targetPosition := ⟨1545, 1515⟩
        cameraDelayCounter := 7
        cameraMoving := true } := 
  (quiet_add binary32 26 13 scenarioMoved).trans (by rw [scenario_q26]; decide!)

theorem scenario_late_eq :
    quiet binary32 52 scenarioMoved =
      { player := ⟨51, 50, BLUE⟩
        camera :=
          { offset := ⟨400, 300⟩
            target := ⟨6325879 / 4096, 1515⟩
            rotation := 0
            zoom := 1 }
        targetPosition := ⟨1545, 1515⟩
        cameraDelayCounter := 7
        cameraMoving := true } := 
  (quiet_add binary32 39 13 scenarioMoved).trans (by rw [scenario_q39]; decide!)

theorem scenario_idle_eq :
    quiet binary32 55 scenarioMoved =
      { player := ⟨51, 50, BLUE⟩
        camera :=
          { offset := ⟨400, 300⟩
            target := ⟨12652839 / 8192, 1515⟩
            rotation := 0
            zoom := 1 }
        targetPosition := ⟨1545, 1515⟩
        cameraDelayCounter := 7
        cameraMoving := false } := 
  (quiet_add binary32 52 3 scenarioMoved).trans (by rw [scenario_late_eq]; decide!)

theorem stallUps_eq :
    stallUps =
      { player := ⟨51, 41, BLUE⟩
        camera :=
          { offset := ⟨400, 300⟩
            target := ⟨12652839 / 8192, 1515⟩
            rotation := 0
            zoom := 1 }
        targetPosition := ⟨1545, 1245⟩
        cameraDelayCounter := 1
        cameraMoving := false } := by
  unfold stallUps; rw [scenario_idle_eq]; decide!

theorem stall_q20 :
    quiet binary32 20 stallUps =
      { player := ⟨51, 41, BLUE⟩
        camera :=
          { offset := ⟨400, 300⟩
            target := ⟨12655553 / 8192, 10832283 / 8192⟩
            rotation := 0
            zoom := 1 }
        targetPosition := ⟨1545, 1245⟩
        cameraDelayCounter := 7
        cameraMoving := true } := by
  rw [stallUps_eq]; decide!

theorem stall_q40 :
    quiet binary32 40 stallUps =
      { player := ⟨51, 41, BLUE⟩
        camera :=
          { offset := ⟨400, 300⟩
            target := ⟨12656435 / 8192, 10318529 / 8192⟩
            rotation := 0
            zoom := 1 }
        targetPosition := ⟨1545, 1245⟩
        cameraDelayCounter := 7
        cameraMoving := true } := 
  (quiet_add binary32 20 20 stallUps).trans (by rw [stall_q20]; decide!)

theorem stall_q60 :
    quiet binary32 60 stallUps =
      { player := ⟨51, 41, BLUE⟩
        camera :=
          { offset := ⟨400, 300⟩
            target := ⟨6328301 / 4096, 10221587 / 8192⟩
            rotation := 0
            zoom := 1 }
        targetPosition := ⟨1545, 1245⟩
        cameraDelayCounter := 7
        cameraMoving := true } := 
  (quiet_add binary32 40 20 stallUps).trans (by rw [stall_q40]; decide!)

theorem stallState_eq :
    stallState =
      { player := ⟨51, 41, BLUE⟩
        camera :=
          { offset := ⟨400, 300⟩
            target := ⟨6328317 / 4096, 10203295 / 8192⟩
            rotation := 0
            zoom := 1 }
        targetPosition := ⟨1545, 1245⟩
        cameraDelayCounter := 7
        cameraMoving := true } := 
  (quiet_add binary32 60 20 stallUps).trans (by rw [stall_q60]; decide!)

/-- The arithmetic of the program keeps the initial pan in place
(`fixedAt`), on both axes. -/
theorem fixedAt_binary32_initial :
    fixedAt binary32 (initial binary32).camera.target.x ∧
    fixedAt binary32 (initial binary32).camera.target.y := by
  unfold fixedAt
  decide!

/-! ## No overshoot in binary32 -/

theorem camera_speed_binary32 : CAMERA_SPEED binary32 = 5368709 / 67108864 := by
  decide!

theorem round32_half : round32 (1 / 2) = 1 / 2 := by
  decide!

theorem round32_thirtysecond : round32 (1 / 32) = 1 / 32 := by
  decide!

theorem lerp_binary32 (p t a : ℚ) :
    lerp binary32 p t a = round32 (p + round32 (a * round32 (t - p))) := rfl

theorem lerp32_increment_bounds (p t : ℚ) :
    (p ≤ t → 0 ≤ round32 (CAMERA_SPEED binary32 * round32 (t - p)) ∧
      round32 (CAMERA_SPEED binary32 * round32 (t - p)) ≤ t - p) ∧
    (t ≤ p → round32 (CAMERA_SPEED binary32 * round32 (t - p)) ≤ 0 ∧
      t - p ≤ round32 (CAMERA_SPEED binary32 * round32 (t - p))) := by
  rw [camera_speed_binary32]
  constructor
  · intro h
    have hx : 0 ≤ t - p := sub_nonneg.mpr h
    have ha0 := round32_nonneg hx
    have ha2 := round32_le_two_mul hx
    have hm : (0 : ℚ) ≤ 5368709 / 67108864 * round32 (t - p) := by positivity
    have hb0 := round32_nonneg hm
    have hb2 := round32_le_two_mul hm
    exact ⟨hb0, by linarith⟩
  · intro h
    have hx : t - p ≤ 0 := sub_nonpos.mpr h
    have ha0 := round32_nonpos hx
    have ha2 := two_mul_le_round32 hx
    have hm : 5368709 / 67108864 * round32 (t - p) ≤ 0 := by nlinarith
    have hb0 := round32_nonpos hm
    have hb2 := two_mul_le_round32 hm
    exact ⟨hb0, by linarith⟩

theorem lerp32_staysBetween (p t : ℚ) (hp : round32 p = p) (ht : round32 t = t) :
    staysBetween p t (lerp binary32 p t (CAMERA_SPEED binary32)) := by
  rw [lerp_binary32]
  have hb := lerp32_increment_bounds p t
  have hle : p ≤ t → p ≤ round32 (p + round32 (CAMERA_SPEED binary32 * round32 (t - p))) ∧
      round32 (p + round32 (CAMERA_SPEED binary32 * round32 (t - p))) ≤ t := by
    intro h
    obtain ⟨h0, h1⟩ := hb.1 h
    have l1 := round32_mono (show p ≤ p + round32 (CAMERA_SPEED binary32 * round32 (t - p)) by
      linarith)
    have l2 := round32_mono (show p + round32 (CAMERA_SPEED binary32 * round32 (t - p)) ≤ t by
      linarith)
    rw [hp] at l1
    rw [ht] at l2
    exact ⟨l1, l2⟩
  have hge : t ≤ p → t ≤ round32 (p + round32 (CAMERA_SPEED binary32 * round32 (t - p))) ∧
      round32 (p + round32 (CAMERA_SPEED binary32 * round32 (t - p))) ≤ p := by
    intro h
    obtain ⟨h0, h1⟩ := hb.2 h
    have l1 := round32_mono (show t ≤ p + round32 (CAMERA_SPEED binary32 * round32 (t - p)) by
      linarith)
    have l2 := round32_mono (show p + round32 (CAMERA_SPEED binary32 * round32 (t - p)) ≤ p by
      linarith)
    rw [ht] at l1
    rw [hp] at l2
    exact ⟨l1, l2⟩
  refine ⟨hle, hge, ?_⟩
  rcases le_total p t with h | h
  · obtain ⟨l1, l2⟩ := hle h
    rw [abs_of_nonpos (by linarith), abs_of_nonpos (by linarith)]
    linarith
  · obtain ⟨l1, l2⟩ := hge h
    rw [abs_of_nonneg (by linarith), abs_of_nonneg (by linarith)]
    linarith

theorem lerp32_strict (p t : ℚ) (hp : round32 p = p) (ht : round32 t = t)
    (hpb : |p| ≤ 4096) (htb : |t| ≤ 4096) (hd : 1 / 2 ≤ |p - t|) :
    |lerp binary32 p t (CAMERA_SPEED binary32) - t| < |p - t| := by
  have hsb := lerp32_staysBetween p t hp ht
  rw [lerp_binary32] at hsb ⊢
  have hb := lerp32_increment_bounds p t
  rw [camera_speed_binary32] at hsb hb ⊢
  obtain ⟨hp1, hp2⟩ := abs_le.mp hpb
  obtain ⟨ht1, ht2⟩ := abs_le.mp htb
  rcases le_total p t with h | h
  · have hx : 1 / 2 ≤ t - p := by
      rw [abs_of_nonpos (by linarith)] at hd
      linarith
    have ha := round32_mono hx
    rw [round32_half] at ha
    have hm : (1 : ℚ) / 32 ≤ 5368709 / 67108864 * round32 (t - p) := by linarith
    have hbl := round32_mono hm
    rw [round32_thirtysecond] at hbl
    obtain ⟨_, hbu⟩ := hb.1 h
    have hy : |p + round32 (5368709 / 67108864 * round32 (t - p))| ≤ 4096 :=
      abs_le.mpr ⟨by linarith, by linarith⟩
    have herr := round32_err (p + round32 (5368709 / 67108864 * round32 (t - p)))
    have hulp := ulp32_le_of_abs_le hy
    obtain ⟨e1, _⟩ := abs_le.mp herr
    obtain ⟨_, l2⟩ := hsb.1 h
    rw [abs_of_nonpos (by linarith), abs_of_nonpos (by linarith)]
    linarith
  · have hx : t - p ≤ -(1 / 2) := by
      rw [abs_of_nonneg (by linarith)] at hd
      linarith
    have ha := round32_mono hx
    rw [round32_neg, round32_half] at ha
    have hm : 5368709 / 67108864 * round32 (t - p) ≤ -(1 / 32) := by linarith
    have hbl := round32_mono hm
    rw [round32_neg, round32_thirtysecond] at hbl
    obtain ⟨_, hbu⟩ := hb.2 h
    have hy : |p + round32 (5368709 / 67108864 * round32 (t - p))| ≤ 4096 :=
      abs_le.mpr ⟨by linarith, by linarith⟩
    have herr := round32_err (p + round32 (5368709 / 67108864 * round32 (t - p)))
    have hulp := ulp32_le_of_abs_le hy
    obtain ⟨_, e2⟩ := abs_le.mp herr
    obtain ⟨l1, _⟩ := hsb.2.1 h
    rw [abs_of_nonneg (by linarith), abs_of_nonneg (by linarith)]
    linarith

/-- C14, as stated, fails in the program's arithmetic: in the reachable state
`stallState` (pan x `1544.999267578125`, target x `1545`) the next frame runs
the MOVING step, the pan differs from the target on the x axis, and the step
returns the same pan x: the distance is not zero and does not decrease. -/
theorem C14_stalled_step :
    (afterDelay binary32 noKey stallState).cameraMoving = true ∧
    stallState.camera.target.x = 6328317 / 4096 ∧
    (frame binary32 noKey stallState).targetPosition.x = 1545 ∧
    stallState.camera.target.x ≠ (frame binary32 noKey stallState).targetPosition.x ∧
    (frame binary32 noKey stallState).camera.target.x = stallState.camera.target.x ∧
    ¬ (|(frame binary32 noKey stallState).camera.target.x
          - (frame binary32 noKey stallState).targetPosition.x|
        < |stallState.camera.target.x - (frame binary32 noKey stallState).targetPosition.x|) := by
  rw [stallState_eq]
  decide!

/-- C14 (amended): no overshoot in the program's arithmetic (binary32, `alpha`
the float `0.08f`).  In every frame that runs the MOVING step, for pan and
target values that are binary32 numbers, each axis of the new `camera.target`
lies between its previous value and `targetPosition` inclusive, on the same
side of the target, and the per-axis distance to the target does not
increase; it strictly decreases when it is at least `0.5` and pan and target
are within `±4096`.  For a smaller non-zero distance the rounded step may
return the pan unchanged. -/
theorem C14_no_overshoot (s : Game ℚ) (k : Key → Bool)
    (hm : (afterDelay binary32 k s).cameraMoving = true)
    (hpx : round32 s.camera.target.x = s.camera.target.x)
    (hpy : round32 s.camera.target.y = s.camera.target.y)
    (htx : round32 (frame binary32 k s).targetPosition.x = (frame binary32 k s).targetPosition.x)
    (hty : round32 (frame binary32 k s).targetPosition.y = (frame binary32 k s).targetPosition.y) :
    (staysBetween s.camera.target.x (frame binary32 k s).targetPosition.x
        (frame binary32 k s).camera.target.x ∧
      staysBetween s.camera.target.y (frame binary32 k s).targetPosition.y
        (frame binary32 k s).camera.target.y) ∧
    (|s.camera.target.x| ≤ 4096 → |(frame binary32 k s).targetPosition.x| ≤ 4096 →
      1 / 2 ≤ |s.camera.target.x - (frame binary32 k s).targetPosition.x| →
      |(frame binary32 k s).camera.target.x - (frame binary32 k s).targetPosition.x|
        < |s.camera.target.x - (frame binary32 k s).targetPosition.x|) ∧
    (|s.camera.target.y| ≤ 4096 → |(frame binary32 k s).targetPosition.y| ≤ 4096 →
      1 / 2 ≤ |s.camera.target.y - (frame binary32 k s).targetPosition.y| →
      |(frame binary32 k s).camera.target.y - (frame binary32 k s).targetPosition.y|
        < |s.camera.target.y - (frame binary32 k s).targetPosition.y|) := by
  have hcam := moveCamera_moving binary32 (afterDelay binary32 k s) hm
  rw [afterDelay_camera] at hcam
  have htp : (frame binary32 k s).targetPosition = (afterDelay binary32 k s).targetPosition := by
    unfold frame
    rw [moveCamera_targetPosition]
  have hqx : (frame binary32 k s).camera.target.x =
      lerp binary32 s.camera.target.x (frame binary32 k s).targetPosition.x
        (CAMERA_SPEED binary32) := by
    rw [htp]
    unfold frame
    rw [hcam]
    rfl
  have hqy : (frame binary32 k s).camera.target.y =
      lerp binary32 s.camera.target.y (frame binary32 k s).targetPosition.y
        (CAMERA_SPEED binary32) := by
    rw [htp]
    unfold frame
    rw [hcam]
    rfl
  rw [hqx, hqy]
  exact ⟨⟨lerp32_staysBetween _ _ hpx htx, lerp32_staysBetween _ _ hpy hty⟩,
    fun h1 h2 h3 => lerp32_strict _ _ hpx htx h1 h2 h3,
    fun h1 h2 h3 => lerp32_strict _ _ hpy hty h1 h2 h3⟩

theorem C14_no_overshoot_witness :
    (afterDelay binary32 noKey (quiet binary32 5 scenarioMoved)).cameraMoving = true ∧
    round32 (quiet binary32 5 scenarioMoved).camera.target.x
      = (quiet binary32 5 scenarioMoved).camera.target.x ∧
    staysBetween (quiet binary32 5 scenarioMoved).camera.target.x
      (frame binary32 noKey (quiet binary32 5 scenarioMoved)).targetPosition.x
      (frame binary32 noKey (quiet binary32 5 scenarioMoved)).camera.target.x :=
  ⟨by decide!, by decide!,
   (C14_no_overshoot (quiet binary32 5 scenarioMoved) noKey (by decide!) (by decide!)
      (by decide!) (by decide!) (by decide!)).1.1⟩

/-! ## The glide, in any arithmetic -/

theorem quiet_idle_add {F : Type} (A : FloatOps F) (s : Game F) (N : Nat)
    (hm : (quiet A N s).cameraMoving = false)
    (hc : (quiet A N s).cameraDelayCounter = CAMERA_DELAY_FRAMES) (n : Nat) :
    quiet A (N + n) s = quiet A N s := by
  rw [quiet_add]
  exact quiet_idle A _ hm hc n

theorem phasesAfter_getElem {F : Type} (A : FloatOps F) :
    ∀ (n : Nat) (s : Game F) (i : Nat), i < n →
      (phasesAfter A n s)[i]? = some (phase (quiet A (i + 1) s)) := by
  intro n
  induction n with
  | zero => intro s i hi; exact absurd hi (Nat.not_lt_zero i)
  | succ n ih =>
    intro s i hi
    cases i with
    | zero =>
      simp only [phasesAfter, List.getElem?_cons_zero]
      rfl
    | succ i =>
      simp only [phasesAfter, List.getElem?_cons_succ]
      rw [ih (frame A noKey s) i (Nat.lt_of_succ_lt_succ hi)]
      rfl

theorem scenario_phases :
    phasesAfter binary32 55 scenarioMoved =
      List.replicate 5 Phase.WAITING ++ List.replicate 49 Phase.MOVING ++ [Phase.IDLE] := by
  rw [scenarioMoved_eq]
  decide!

theorem scenario_phase (i : Nat) (hi : i < 55) :
    phase (quiet binary32 (i + 1) scenarioMoved) =
      if i < 5 then Phase.WAITING else if i < 54 then Phase.MOVING else Phase.IDLE := by
  have h := phasesAfter_getElem binary32 55 scenarioMoved i hi
  rw [scenario_phases] at h
  have hl : ∀ j : Nat, j < 55 →
      (List.replicate 5 Phase.WAITING ++ List.replicate 49 Phase.MOVING ++ [Phase.IDLE])[j]?
        = some (if j < 5 then Phase.WAITING else if j < 54 then Phase.MOVING else Phase.IDLE) := by
    decide
  rw [hl i hi] at h
  exact (Option.some.inj h).symm

theorem first_below_half : (30 : ℚ) * (92 / 100) ^ 50 < 1 / 2 ∧
    ∀ m : Nat, m < 50 → ¬ ((30 : ℚ) * (92 / 100) ^ m < 1 / 2) := by
  refine ⟨by norm_num, ?_⟩
  intro m hm hlt
  have h49 : (1 : ℚ) / 2 ≤ 30 * (92 / 100) ^ 49 := by norm_num
  have hmono : ((92 : ℚ) / 100) ^ 49 ≤ (92 / 100) ^ m :=
    pow_le_pow_of_le_one (by norm_num) (by norm_num) (Nat.le_of_lt_succ hm)
  linarith

/-- C12: the end-to-end scenario, in the arithmetic of the program (binary32,
threshold 7, `alpha` the float `0.08f`, epsilon `0.5`).  From the initial
state (entity at `(50, 50)`, pan `(1515, 1515)`) a frame with only the right
key pressed moves the entity to `(51, 50)`, raises `targetPosition.x` by
exactly `GRID_SIZE = 30` and leaves `targetPosition.y` and the camera
unchanged.  With no further input the controller waits for five frames, then
interpolates: `n = 50` is the first `n` with `30 * 0.92^n < 0.5`, and the
program is `MOVING` after interpolation frames 1 to 49 and `IDLE` after
interpolation frame 50, with `|pan.x - target.x| < 0.5` and `pan.y` still 1515,
and it stays in that state in all later frames. -/
theorem C12_scenario :
    ((initial binary32).player.x = 50 ∧ (initial binary32).player.y = 50 ∧
      (initial binary32).camera.target = ⟨1515, 1515⟩ ∧
      (initial binary32).targetPosition = ⟨1515, 1515⟩) ∧
    (attempts (only Key.KEY_RIGHT) = [Direction.right] ∧
      scenarioMoved.player.x = 51 ∧ scenarioMoved.player.y = 50 ∧
      scenarioMoved.targetPosition.x - (initial binary32).targetPosition.x = (GRID_SIZE : ℚ) ∧
      scenarioMoved.targetPosition.y = (initial binary32).targetPosition.y ∧
      scenarioMoved.camera = (initial binary32).camera ∧
      phase scenarioMoved = Phase.WAITING) ∧
    ((CAMERA_DELAY_FRAMES = 7 ∧ CAMERA_SPEED binary32 = 5368709 / 67108864 ∧
        EPSILON binary32 = 1 / 2) ∧
      (30 : ℚ) * (92 / 100) ^ 50 < 1 / 2 ∧
      ∀ m : Nat, m < 50 → ¬ ((30 : ℚ) * (92 / 100) ^ m < 1 / 2)) ∧
    (∀ n : Nat, n ≤ 5 →
      phase (quiet binary32 n scenarioMoved) = Phase.WAITING ∧
      (quiet binary32 n scenarioMoved).camera = (initial binary32).camera) ∧
    (∀ n : Nat, 1 ≤ n → n < 50 → phase (quiet binary32 (5 + n) scenarioMoved) = Phase.MOVING) ∧
    (phase (quiet binary32 (5 + 50) scenarioMoved) = Phase.IDLE ∧
      |(quiet binary32 (5 + 50) scenarioMoved).camera.target.x
          - (quiet binary32 (5 + 50) scenarioMoved).targetPosition.x| < 1 / 2 ∧
      (quiet binary32 (5 + 50) scenarioMoved).camera.target.y
        = (initial binary32).camera.target.y ∧
      (quiet binary32 (5 + 50) scenarioMoved).targetPosition = scenarioMoved.targetPosition) ∧
    (∀ n : Nat,
      quiet binary32 (5 + 50 + n) scenarioMoved = quiet binary32 (5 + 50) scenarioMoved) := by
  have hk : (handleInput (only Key.KEY_RIGHT) (initial binary32).player).1 = true := by decide
  have hinit : (initial binary32).camera = ⟨⟨400, 300⟩, ⟨1515, 1515⟩, 0, 1⟩ ∧
      (initial binary32).targetPosition = ⟨1515, 1515⟩ := by decide!
  refine ⟨⟨by decide, by decide, by rw [hinit.1], hinit.2⟩, ?_, ?_, ?_, ?_, ?_, ?_⟩
  · rw [scenarioMoved_eq, hinit.1, hinit.2]
    refine ⟨by decide, rfl, rfl, ?_, rfl, rfl, by decide⟩
    show (1545 : ℚ) - 1515 = ((30 : Int) : ℚ)
    norm_num
  · exact ⟨⟨rfl, camera_speed_binary32, by decide!⟩, first_below_half⟩
  · intro n hn
    have h := quiet_after_move binary32 (only Key.KEY_RIGHT) (initial binary32) hk n hn
    have h' : quiet binary32 n scenarioMoved = _ := h
    rw [h']
    refine ⟨?_, rfl⟩
    have hc : (1 : Int) + (n : Int) < 7 := by omega
    unfold phase CAMERA_DELAY_FRAMES
    show (if false = true then Phase.MOVING
      else if (1 : Int) + (n : Int) < 7 then Phase.WAITING else Phase.IDLE) = Phase.WAITING
    simp [hc]
  · intro n h1 hn
    have h := scenario_phase (4 + n) (by omega)
    rw [show 4 + n + 1 = 5 + n by omega] at h
    rw [h, if_neg (by omega), if_pos (by omega)]
  · rw [show 5 + 50 = 55 from rfl, scenario_idle_eq, hinit.1, scenarioMoved_eq]
    refine ⟨by decide, ?_, rfl, rfl⟩
    show |(12652839 : ℚ) / 8192 - 1545| < 1 / 2
    rw [abs_of_nonpos (by norm_num)]
    norm_num
  · intro n
    have hm : (quiet binary32 (5 + 50) scenarioMoved).cameraMoving = false := by
      rw [show 5 + 50 = 55 from rfl, scenario_idle_eq]
    have hc : (quiet binary32 (5 + 50) scenarioMoved).cameraDelayCounter
        = CAMERA_DELAY_FRAMES := by
      rw [show 5 + 50 = 55 from rfl, scenario_idle_eq]
      rfl
    exact quiet_idle_add binary32 scenarioMoved (5 + 50) hm hc n

end Ceepers
